import Mathlib

/-!
# Verification of the pdf_reading_agent backend pipeline

Shallow embedding of the transaction-extraction pipeline of the
`pdf_reading_agent` repository (`backend/services/statement_agent.py`,
`backend/services/pdf_processor.py`, `backend/services/csv_export.py`,
`backend/store.py`).

External effects (the LLM chat calls, PDF rendering, OCR, the vision API)
are modelled as oracle parameters; the Python standard-library function
`json.loads` is likewise a parameter of the embedded pipeline, with a
concrete executable model (`jsonLoadsModel`, covering the JSON fragment
without floating-point numerals) used to instantiate witnesses and
counterexamples.  All repository logic — chunking, bracket scanning,
deduplication, normalization, categorization matching, CSV rendering,
the scanned-document dispatch — is translated directly from the source.
-/

namespace PdfAgent

/-! ## Python string primitives

Models of the Python `str` operations the repository uses, over ASCII
text: `str.lower`, `str.strip`, slicing, and `len`. -/

/-- Characters removed by Python `str.strip()` (the ASCII whitespace set). -/
def pySpaceChars : List Char := [' ', '\t', '\n', '\r', Char.ofNat 11, Char.ofNat 12]

def pyIsSpace (c : Char) : Bool := pySpaceChars.contains c

/-- Python `s.strip()`: remove leading and trailing whitespace. -/
def pyStrip (s : String) : String :=
  String.mk (((s.toList.dropWhile pyIsSpace).reverse.dropWhile pyIsSpace).reverse)

/-- Python `s.lower()` (ASCII case folding). -/
def pyLower (s : String) : String := String.mk (s.toList.map Char.toLower)

/-- Python `len(s)` (number of characters). -/
def pyLen (s : String) : Nat := s.toList.length

/-- Python `s[a:b]` for `0 ≤ a ≤ b` (indices clamped like Python slicing). -/
def pySlice (s : String) (a b : Nat) : String :=
  String.mk ((s.toList.drop a).take (b - a))

/-! ## Python values produced by `json.loads`

A JSON-derived Python value: strings, integers, booleans, `None`,
lists and dicts (a dict is its key/value pairs in document order; a
repeated key is resolved to the last binding, as `json.loads` does). -/

inductive PyVal where
  | vstr (s : String)
  | vint (n : Int)
  | vbool (b : Bool)
  | vnull
  | vlist (xs : List PyVal)
  | vdict (fields : List (String × PyVal))

/-- A JSON object as a Python dict: key/value pairs in document order. -/
abbrev PyDict := List (String × PyVal)

/-- Python `d.get(k)` on a JSON-derived dict: the last binding of `k` wins,
matching how `json.loads` resolves repeated keys. -/
def dGet (d : PyDict) (k : String) : Option PyVal :=
  match d with
  | [] => none
  | (k', v) :: rest =>
    match dGet rest k with
    | some w => some w
    | none => if k' = k then some v else none

/-- Python `d.get(k, default)`. -/
def dGetD (d : PyDict) (k : String) (default : PyVal) : PyVal :=
  (dGet d k).getD default

/-- Simplified CPython `repr` of a string: single quotes, escaping the
backslash and the quote character (the quote-choice and control-character
refinements of CPython are not modelled; no claim depends on them). -/
def pyReprStr (s : String) : String :=
  String.mk (Char.ofNat 39 :: (s.toList.foldr
    (fun c acc =>
      if c = '\\' ∨ c = Char.ofNat 39 then '\\' :: c :: acc else c :: acc)
    [Char.ofNat 39]))

mutual

/-- Python `repr` on JSON-derived values (string quoting simplified, see
`pyReprStr`). -/
def pyRepr : PyVal → String
  | .vstr s => pyReprStr s
  | .vint n => toString n
  | .vbool b => if b then "True" else "False"
  | .vnull => "None"
  | .vlist xs => "[" ++ String.intercalate ", " (pyReprList xs) ++ "]"
  | .vdict fs => "\x7b" ++ String.intercalate ", " (pyReprFields fs) ++ "\x7d"

def pyReprList : List PyVal → List String
  | [] => []
  | x :: xs => pyRepr x :: pyReprList xs

def pyReprFields : List (String × PyVal) → List String
  | [] => []
  | (k, v) :: fs => (pyReprStr k ++ ": " ++ pyRepr v) :: pyReprFields fs

end

/-- Python `str()` on JSON-derived values: a string is itself; every other
JSON-derived value prints as its `repr`. -/
def pyStr : PyVal → String
  | .vstr s => s
  | v => pyRepr v

/-! ## A concrete model of `json.loads`

`json.loads` is a parameter of the embedded pipeline (it is Python
standard library, not repository code); `jsonLoadsModel` is a concrete
executable model of it used to instantiate witnesses and
counterexamples.  It covers the JSON fragment without floating-point
numerals: strings with the standard escapes, integers, booleans, null,
arrays, objects (last binding of a repeated key wins via `dGet`), and
insignificant whitespace. -/

def jsonWs (c : Char) : Bool := c = ' ' ∨ c = '\t' ∨ c = '\n' ∨ c = '\r'

def skipWs (cs : List Char) : List Char := cs.dropWhile jsonWs

def hexVal (c : Char) : Option Nat :=
  if '0' ≤ c ∧ c ≤ '9' then some (c.toNat - '0'.toNat)
  else if 'a' ≤ c ∧ c ≤ 'f' then some (c.toNat - 'a'.toNat + 10)
  else if 'A' ≤ c ∧ c ≤ 'F' then some (c.toNat - 'A'.toNat + 10)
  else none

/-- Parse the body of a JSON string literal (after the opening quote),
returning the decoded characters and the input past the closing quote. -/
def parseJStr : List Char → Option (List Char × List Char)
  | [] => none
  | c :: rest =>
    if c = '"' then some ([], rest)
    else if c = '\\' then
      match rest with
      | [] => none
      | e :: rest' =>
        let dec : Option Char :=
          if e = '"' then some '"'
          else if e = '\\' then some '\\'
          else if e = '/' then some '/'
          else if e = 'b' then some (Char.ofNat 8)
          else if e = 'f' then some (Char.ofNat 12)
          else if e = 'n' then some '\n'
          else if e = 'r' then some '\r'
          else if e = 't' then some '\t'
          else none
        match dec with
        | some d =>
          match parseJStr rest' with
          | some (s, r) => some (d :: s, r)
          | none => none
        | none =>
          if e = 'u' then
            match rest' with
            | h1 :: h2 :: h3 :: h4 :: rest'' =>
              match hexVal h1, hexVal h2, hexVal h3, hexVal h4 with
              | some a, some b, some c', some d =>
                match parseJStr rest'' with
                | some (s, r) => some (Char.ofNat (((a * 16 + b) * 16 + c') * 16 + d) :: s, r)
                | none => none
              | _, _, _, _ => none
            | _ => none
          else none
    else if c.toNat < 32 then none
    else
      match parseJStr rest with
      | some (s, r) => some (c :: s, r)
      | none => none

def isDigit (c : Char) : Bool := '0' ≤ c ∧ c ≤ '9'

/-- Parse a JSON integer numeral (optional minus, no leading zeros);
numerals continuing with `.`, `e` or `E` are outside the modelled
fragment and rejected. -/
def parseJInt (cs : List Char) : Option (Int × List Char) :=
  let (neg, cs') := match cs with
    | '-' :: r => (true, r)
    | _ => (false, cs)
  let digits := cs'.takeWhile isDigit
  let rest := cs'.dropWhile isDigit
  if digits = [] then none
  else if digits.length > 1 ∧ digits.headD '0' = '0' then none
  else
    match rest with
    | '.' :: _ => none
    | 'e' :: _ => none
    | 'E' :: _ => none
    | _ =>
      let n : Nat := digits.foldl (fun acc c => acc * 10 + (c.toNat - '0'.toNat)) 0
      some (if neg then -(n : Int) else (n : Int), rest)

mutual

def parseJVal (fuel : Nat) (cs : List Char) : Option (PyVal × List Char) :=
  match fuel with
  | 0 => none
  | fuel + 1 =>
    match skipWs cs with
    | [] => none
    | c :: rest =>
      if c = '"' then
        match parseJStr rest with
        | some (s, r) => some (.vstr (String.mk s), r)
        | none => none
      else if c = '[' then
        match skipWs rest with
        | ']' :: r => some (.vlist [], r)
        | other => match parseJArr fuel other with
          | some (xs, r) => some (.vlist xs, r)
          | none => none
      else if c = Char.ofNat 123 then
        match skipWs rest with
        | c' :: r =>
          if c' = Char.ofNat 125 then some (.vdict [], r)
          else match parseJObj fuel (c' :: r) with
            | some (fs, r') => some (.vdict fs, r')
            | none => none
        | [] => none
      else if c = 't' then
        match rest with
        | 'r' :: 'u' :: 'e' :: r => some (.vbool true, r)
        | _ => none
      else if c = 'f' then
        match rest with
        | 'a' :: 'l' :: 's' :: 'e' :: r => some (.vbool false, r)
        | _ => none
      else if c = 'n' then
        match rest with
        | 'u' :: 'l' :: 'l' :: r => some (.vnull, r)
        | _ => none
      else
        match parseJInt (c :: rest) with
        | some (n, r) => some (.vint n, r)
        | none => none

/-- Elements of a JSON array (at least one), up to and past `]`. -/
def parseJArr (fuel : Nat) (cs : List Char) : Option (List PyVal × List Char) :=
  match fuel with
  | 0 => none
  | fuel + 1 =>
    match parseJVal fuel cs with
    | none => none
    | some (v, r) =>
      match skipWs r with
      | ',' :: r' =>
        match parseJArr fuel r' with
        | some (xs, r'') => some (v :: xs, r'')
        | none => none
      | ']' :: r' => some ([v], r')
      | _ => none

/-- Members of a JSON object (at least one), up to and past the closing
brace. -/
def parseJObj (fuel : Nat) (cs : List Char) : Option (List (String × PyVal) × List Char) :=
  match fuel with
  | 0 => none
  | fuel + 1 =>
    match skipWs cs with
    | '"' :: r =>
      match parseJStr r with
      | none => none
      | some (k, r') =>
        match skipWs r' with
        | ':' :: r'' =>
          match parseJVal fuel r'' with
          | none => none
          | some (v, r3) =>
            match skipWs r3 with
            | ',' :: r4 =>
              match parseJObj fuel r4 with
              | some (fs, r5) => some ((String.mk k, v) :: fs, r5)
              | none => none
            | c :: r4 =>
              if c = Char.ofNat 125 then some ([(String.mk k, v)], r4) else none
            | [] => none
        | _ => none
    | _ => none

end

/-- Concrete model of Python `json.loads` (over the fragment described
above): parse one value and require only whitespace after it. -/
def jsonLoadsModel (s : String) : Option PyVal :=
  match parseJVal (2 * s.toList.length + 2) s.toList with
  | some (v, rest) => if skipWs rest = [] then some v else none
  | none => none

/-! ## `statement_agent.py` — helpers

Direct translations of `_extract_json_block`, `_extract_first_json_array`,
`_extract_first_json_object` and `_parse_transaction_objects_from_text`. -/

def firstIdxOf (c : Char) (cs : List Char) : Option Nat := cs.findIdx? (· == c)

def lastIdxOf (c : Char) (cs : List Char) : Option Nat :=
  match cs.reverse.findIdx? (· == c) with
  | some k => some (cs.length - 1 - k)
  | none => none

/-- `re.search` of the greedy pattern `op[\s\S]*cl`: succeeds iff the first
`op` has some `cl` strictly after it, and then spans from that first `op`
to the last `cl` of the text. -/
def greedyBracketMatch (op cl : Char) (text : String) : Option String :=
  let cs := text.toList
  match firstIdxOf op cs, lastIdxOf cl cs with
  | some i, some j => if i < j then some (String.mk ((cs.drop i).take (j + 1 - i))) else none
  | _, _ => none

/-- `_extract_json_block`: first bracketed `[...]` span, else first braced
span, else the whole text. -/
def extractJsonBlock (text : String) : String :=
  match greedyBracketMatch '[' ']' text with
  | some s => s
  | none =>
    match greedyBracketMatch (Char.ofNat 123) (Char.ofNat 125) text with
    | some s => s
    | none => text

/-- The shared character loop of `_extract_first_json_array` and
`_extract_first_json_object` (the two Python loops are identical up to the
bracket pair): scan with depth / in-string / escape / quote state, returning
the number of characters consumed up to and including the bracket that
brings the depth to zero. -/
def scanToClose (op cl : Char) : List Char → Int → Bool → Bool → Option Char → Option Nat
  | [], _, _, _, _ => none
  | c :: rest, depth, inStr, esc, quote =>
    if esc then
      (scanToClose op cl rest depth inStr false quote).map (· + 1)
    else if c = '\\' ∧ inStr then
      (scanToClose op cl rest depth inStr true quote).map (· + 1)
    else if inStr then
      (scanToClose op cl rest depth (if quote = some c then false else true) false quote).map (· + 1)
    else if c = '"' ∨ c = Char.ofNat 39 then
      (scanToClose op cl rest depth true false (some c)).map (· + 1)
    else if c = op then
      (scanToClose op cl rest (depth + 1) false false quote).map (· + 1)
    else if c = cl then
      if depth - 1 = 0 then some 1
      else (scanToClose op cl rest (depth - 1) false false quote).map (· + 1)
    else
      (scanToClose op cl rest depth false false quote).map (· + 1)

/-- `_extract_first_json_array`: from the first `[`, the span through the
matching `]`; the rest of the text from `[` if unbalanced; `""` if no `[`. -/
def extractFirstJsonArray (text : String) : String :=
  let cs := text.toList
  match firstIdxOf '[' cs with
  | none => ""
  | some start =>
    let tail := cs.drop start
    match scanToClose '[' ']' tail 0 false false none with
    | some n => String.mk (tail.take n)
    | none => String.mk tail

/-- `_extract_first_json_object`: first complete braced span at or after
`startPos`, returned with the index one past its end; `none` if absent or
unbalanced. -/
def extractFirstJsonObject (text : String) (startPos : Nat) : Option (String × Nat) :=
  let cs := text.toList
  match (cs.drop startPos).findIdx? (· == Char.ofNat 123) with
  | none => none
  | some k =>
    let start := startPos + k
    let tail := cs.drop start
    match scanToClose (Char.ofNat 123) (Char.ofNat 125) tail 0 false false none with
    | some n => some (String.mk (tail.take n), start + n)
    | none => none

/-- Loop body of `_parse_transaction_objects_from_text`; the fuel is a bound
on the number of iterations (each iteration strictly advances the
position, so `length + 1` iterations always suffice). -/
def parseTransactionObjectsAux (jl : String → Option PyVal) (text : String) :
    Nat → Nat → List PyDict
  | _, 0 => []
  | pos, fuel + 1 =>
    match extractFirstJsonObject text pos with
    | none => []
    | some (sub, nextPos) =>
      let keep : List PyDict :=
        match jl sub with
        | some (.vdict d) =>
          if (dGet d "amount").isSome ∨ ((dGet d "date").isSome ∧ (dGet d "description").isSome)
          then [d] else []
        | _ => []
      keep ++ parseTransactionObjectsAux jl text nextPos fuel

/-- `_parse_transaction_objects_from_text`: scan the text for complete
braced spans, parse each, and keep the transaction-shaped dicts. -/
def parseTransactionObjects (jl : String → Option PyVal) (text : String) : List PyDict :=
  parseTransactionObjectsAux jl text 0 (text.toList.length + 1)

/-! ## `statement_agent.py` — `extract_and_categorize` -/

def CATEGORIES : List String :=
  ["Groceries", "Utilities", "Shopping", "Transfer", "Dining", "Transport",
   "Healthcare", "Entertainment", "Other"]

def EXTRACTION_TEXT_CAP : Nat := 100000

def EXTRACTION_CHUNK_OVERLAP : Nat := 3000

/-- The chunking `while` loop: emit `text[start : start+cap]`; stop when the
end reaches the text length, else restart `overlap` characters before the
end. -/
def chunkLoop (s : String) (start : Nat) : List String :=
  if pyLen s ≤ start + EXTRACTION_TEXT_CAP then
    [pySlice s start (start + EXTRACTION_TEXT_CAP)]
  else
    pySlice s start (start + EXTRACTION_TEXT_CAP) ::
      chunkLoop s (start + EXTRACTION_TEXT_CAP - EXTRACTION_CHUNK_OVERLAP)
termination_by pyLen s - start
decreasing_by
  simp only [EXTRACTION_TEXT_CAP, EXTRACTION_CHUNK_OVERLAP] at *
  omega

/-- The chunk list sent to the extraction model: the trimmed text itself
when it fits the cap, else the overlapping slices of `chunkLoop`. -/
def chunksOf (t : String) : List String :=
  if pyLen t ≤ EXTRACTION_TEXT_CAP then [t] else chunkLoop t 0

/-- Per-chunk handling of the model response: JSON-block extraction and
`json.loads`, a decode error yielding `[]`, and only a parsed list
extending the accumulator. -/
def chunkParsed (jl : String → Option PyVal) (out : String) : List PyVal :=
  match jl (extractJsonBlock out) with
  | some (.vlist xs) => xs
  | _ => []

/-- The LLM responses of one `extract_and_categorize` run: the extraction
response per chunk index, the fallback response (`none` models the call
raising), and the categorization response. -/
structure Oracle where
  extractOut : Nat → String
  fallbackOut : Option String
  catOut : String

/-- `all_transactions`: concatenation of the parsed per-chunk results. -/
def allRawTx (jl : String → Option PyVal) (o : Oracle) (text_trimmed : String) : List PyVal :=
  ((chunksOf text_trimmed).enum.map (fun p => chunkParsed jl (o.extractOut p.1))).flatten

/-- The composite deduplication key `(date, description, amount)` of a
parsed record, each part read with default `""` and passed through `str`. -/
def dedupKey (d : PyDict) : String × String × String :=
  (pyStr (dGetD d "date" (.vstr "")), pyStr (dGetD d "description" (.vstr "")),
   pyStr (dGetD d "amount" (.vstr "")))

/-- The dedup loop: skip non-dicts, keep a dict iff its key is unseen,
remembering seen keys. -/
def dedupLoop : List PyVal → List (String × String × String) → List PyVal
  | [], _ => []
  | t :: rest, seen =>
    match t with
    | .vdict d =>
      if dedupKey d ∈ seen then dedupLoop rest seen
      else .vdict d :: dedupLoop rest (dedupKey d :: seen)
    | _ => dedupLoop rest seen

/-- The JSON text the fallback pass tries to parse: the first complete
array, or the generic JSON block when no `[` exists. -/
def fallbackJsonStr (out : String) : String :=
  if extractFirstJsonArray out = "" then extractJsonBlock out else extractFirstJsonArray out

/-- The fallback extraction: `some` a replacement transaction list exactly
when the code reassigns `transactions`, i.e. a parsed non-empty list, or —
on a decode error — a non-empty object rescue; `none` leaves the (empty)
list unchanged, including when the call raises. -/
def fallbackResult (jl : String → Option PyVal) (fbOut : Option String) : Option (List PyVal) :=
  match fbOut with
  | none => none
  | some out =>
    match jl (fallbackJsonStr out) with
    | some (.vlist xs) => if 0 < xs.length then some xs else none
    | some _ => none
    | none =>
      if (parseTransactionObjects jl out).isEmpty then none
      else some ((parseTransactionObjects jl out).map .vdict)

/-- The transaction list after dedup and the zero-result fallback, before
normalization. -/
def preNormList (jl : String → Option PyVal) (o : Oracle) (text_trimmed : String) : List PyVal :=
  if (dedupLoop (allRawTx jl o text_trimmed) []).length = 0 ∧ 400 < pyLen text_trimmed then
    match fallbackResult jl o.fallbackOut with
    | some ts => ts
    | none => dedupLoop (allRawTx jl o text_trimmed) []
  else dedupLoop (allRawTx jl o text_trimmed) []

/-- The canonical transaction record of the pipeline. -/
structure Tx where
  date : String
  description : String
  amount : String
  type : String
  category : String
deriving DecidableEq

/-- Normalization of one surviving record to the five canonical fields;
the `type` expression mirrors the Python
`str(t.get("type", "debit")).lower() in ("credit", "cr") and "credit" or "debit"`. -/
def normalizeTx (d : PyDict) : Tx :=
  { date := pyStr (dGetD d "date" (.vstr ""))
    description := pyStr (dGetD d "description" (.vstr ""))
    amount := pyStr (dGetD d "amount" (.vstr ""))
    type := if pyLower (pyStr (dGetD d "type" (.vstr "debit"))) ∈ (["credit", "cr"] : List String)
            then "credit" else "debit"
    category := "" }

/-- The normalization pass: non-dicts are skipped, dicts are normalized. -/
def normalizePass (ts : List PyVal) : List Tx :=
  ts.filterMap (fun t => match t with | .vdict d => some (normalizeTx d) | _ => none)

/-- Category coercion: strip, keep an exact taxonomy member, else the first
case-insensitive taxonomy match, else `Other`. -/
def coerceCat (raw : String) : String :=
  if pyStrip raw ∈ CATEGORIES then pyStrip raw
  else
    match CATEGORIES.find? (fun a => pyLower a == pyLower (pyStrip raw)) with
    | some a => a
    | none => "Other"

/-- Replace the element at index `i` (out-of-range indices leave the list
unchanged). -/
def modIdx {α : Type} (i : Nat) (f : α → α) : List α → List α
  | [] => []
  | x :: xs =>
    match i with
    | 0 => f x :: xs
    | n + 1 => x :: modIdx n f xs

/-- The comparison of the length-mismatch branch: the candidate entry's
stripped description and amount against a transaction's stripped
description and amount. -/
def trimMatch (d : PyDict) (t : Tx) : Bool :=
  pyStrip t.description == pyStrip (pyStr (dGetD d "description" (.vstr ""))) &&
  pyStrip t.amount == pyStrip (pyStr (dGetD d "amount" (.vstr "")))

/-- One iteration of the categorization matching loop for the `i`-th
returned entry: skip non-dicts and entries without a category; assign the
coerced category positionally when `i` is in range, else to the first
transaction matching the entry's stripped description and amount. -/
def applyCatStep : List Tx → Nat → PyVal → List Tx
  | txs, i, .vdict d =>
    if (dGet d "category").isSome then
      if i < txs.length then
        modIdx i (fun t => { t with category := coerceCat (pyStr (dGetD d "category" (.vstr ""))) }) txs
      else
        match txs.findIdx? (trimMatch d) with
        | some j =>
          modIdx j (fun t => { t with category := coerceCat (pyStr (dGetD d "category" (.vstr ""))) }) txs
        | none => txs
    else txs
  | txs, _, _ => txs

def catLoop : List Tx → List PyVal → Nat → List Tx
  | txs, [], _ => txs
  | txs, c :: rest, i => catLoop (applyCatStep txs i c) rest (i + 1)

/-- The reset `transactions[i]["category"] = "Other"` applied to every
transaction before the matching loop. -/
def setAllOther (txs : List Tx) : List Tx :=
  txs.map (fun t => { t with category := "Other" })

/-- The parsed categorization response: a decode error or a non-list
parse degrades to `[]`. -/
def categorizedOf (jl : String → Option PyVal) (catOut : String) : List PyVal :=
  match jl (extractJsonBlock catOut) with
  | some (.vlist xs) => xs
  | _ => []

/-- The categorization pass over the normalized transactions. -/
def applyCategories (jl : String → Option PyVal) (catOut : String) (txs : List Tx) : List Tx :=
  catLoop (setAllOther txs) (categorizedOf jl catOut) 0

/-- `extract_and_categorize`, with the LLM responses supplied by the
oracle and `json.loads` by `jl`. -/
def extract_and_categorize (jl : String → Option PyVal) (o : Oracle) (raw_text : String) :
    List Tx :=
  if pyStrip raw_text = "" then []
  else if (preNormList jl o (pyStrip raw_text)).isEmpty then []
  else applyCategories jl o.catOut (normalizePass (preNormList jl o (pyStrip raw_text)))

/-- The number of chunk extraction calls a run performs: none at all on
empty or whitespace-only input, else one per element of the chunk list. -/
def chunksProcessed (raw_text : String) : Nat :=
  if pyStrip raw_text = "" then 0 else (chunksOf (pyStrip raw_text)).length

/-! ## Helper notions and lemmas about the categorization pass -/

/-- The four fields of a transaction the categorization pass never
touches. -/
def dropCat (t : Tx) : String × String × String × String :=
  (t.date, t.description, t.amount, t.type)

/-- The dedup key of a finished transaction. -/
def txKey (t : Tx) : String × String × String := (t.date, t.description, t.amount)

/-- The dedup key of a parsed record (junk value on non-dicts, which the
dedup loop discards anyway). -/
def pvKey : PyVal → String × String × String
  | .vdict d => dedupKey d
  | _ => ("", "", "")

lemma map_modIdx {α β : Type} (g : α → β) (f : α → α) (h : ∀ x, g (f x) = g x) :
    ∀ (i : Nat) (l : List α), (modIdx i f l).map g = l.map g := by
  intro i l
  induction l generalizing i with
  | nil => simp [modIdx]
  | cons x xs ih =>
    cases i with
    | zero => simp [modIdx, h]
    | succ n => simp [modIdx, ih]

lemma mem_modIdx {α : Type} (f : α → α) :
    ∀ (i : Nat) (l : List α) (t : α), t ∈ modIdx i f l → t ∈ l ∨ ∃ x ∈ l, t = f x := by
  intro i l
  induction l generalizing i with
  | nil => intro t h; simp [modIdx] at h
  | cons x xs ih =>
    intro t h
    cases i with
    | zero =>
      simp only [modIdx, List.mem_cons] at h
      rcases h with h | h
      · exact Or.inr ⟨x, List.mem_cons_self x xs, h⟩
      · exact Or.inl (List.mem_cons_of_mem x h)
    | succ n =>
      simp only [modIdx, List.mem_cons] at h
      rcases h with h | h
      · exact Or.inl (h ▸ List.mem_cons_self x xs)
      · rcases ih n t h with h' | ⟨y, hy, hty⟩
        · exact Or.inl (List.mem_cons_of_mem x h')
        · exact Or.inr ⟨y, List.mem_cons_of_mem x hy, hty⟩

lemma applyCatStep_dropCat (txs : List Tx) (i : Nat) (c : PyVal) :
    (applyCatStep txs i c).map dropCat = txs.map dropCat := by
  cases c with
  | vdict d =>
    simp only [applyCatStep]
    split
    · split
      · apply map_modIdx
        intro x; rfl
      · split
        · apply map_modIdx
          intro x; rfl
        · rfl
    · rfl
  | vstr s => rfl
  | vint n => rfl
  | vbool b => rfl
  | vnull => rfl
  | vlist xs => rfl

lemma catLoop_dropCat (cs : List PyVal) :
    ∀ (txs : List Tx) (i : Nat), (catLoop txs cs i).map dropCat = txs.map dropCat := by
  induction cs with
  | nil => intro txs i; rfl
  | cons c rest ih =>
    intro txs i
    simp only [catLoop]
    rw [ih, applyCatStep_dropCat]

lemma setAllOther_dropCat (txs : List Tx) :
    (setAllOther txs).map dropCat = txs.map dropCat := by
  unfold setAllOther
  rw [List.map_map]
  rfl

lemma applyCategories_dropCat (jl : String → Option PyVal) (co : String) (txs : List Tx) :
    (applyCategories jl co txs).map dropCat = txs.map dropCat := by
  unfold applyCategories
  rw [catLoop_dropCat, setAllOther_dropCat]

lemma applyCategories_length (jl : String → Option PyVal) (co : String) (txs : List Tx) :
    (applyCategories jl co txs).length = txs.length := by
  have h := congrArg List.length (applyCategories_dropCat jl co txs)
  simpa using h

lemma coerceCat_mem (s : String) : coerceCat s ∈ CATEGORIES := by
  unfold coerceCat
  split
  · assumption
  · split
    · next a h => exact List.mem_of_find?_eq_some h
    · simp [CATEGORIES]

lemma applyCatStep_non_dict (txs : List Tx) (i : Nat) (c : PyVal)
    (h : ∀ d, c ≠ .vdict d) : applyCatStep txs i c = txs := by
  cases c with
  | vdict d => exact absurd rfl (h d)
  | vstr s => rfl
  | vint n => rfl
  | vbool b => rfl
  | vnull => rfl
  | vlist xs => rfl

lemma applyCatStep_cat_mem (txs : List Tx) (i : Nat) (c : PyVal)
    (h : ∀ t ∈ txs, t.category ∈ CATEGORIES) :
    ∀ t ∈ applyCatStep txs i c, t.category ∈ CATEGORIES := by
  cases c with
  | vdict d =>
    simp only [applyCatStep]
    split
    · split
      · intro t ht
        rcases mem_modIdx _ _ _ _ ht with h' | ⟨x, _, rfl⟩
        · exact h t h'
        · exact coerceCat_mem _
      · split
        · intro t ht
          rcases mem_modIdx _ _ _ _ ht with h' | ⟨x, _, rfl⟩
          · exact h t h'
          · exact coerceCat_mem _
        · exact h
    · exact h
  | vstr s => exact h
  | vint n => exact h
  | vbool b => exact h
  | vnull => exact h
  | vlist xs => exact h

lemma catLoop_cat_mem (cs : List PyVal) :
    ∀ (txs : List Tx) (i : Nat), (∀ t ∈ txs, t.category ∈ CATEGORIES) →
      ∀ t ∈ catLoop txs cs i, t.category ∈ CATEGORIES := by
  induction cs with
  | nil => intro txs i h; exact h
  | cons c rest ih =>
    intro txs i h
    simp only [catLoop]
    exact ih _ _ (applyCatStep_cat_mem txs i c h)

lemma mem_setAllOther_category (txs : List Tx) :
    ∀ t ∈ setAllOther txs, t.category = "Other" := by
  intro t ht
  simp only [setAllOther, List.mem_map] at ht
  rcases ht with ⟨u, _, rfl⟩
  rfl

lemma applyCategories_cat_mem (jl : String → Option PyVal) (co : String) (txs : List Tx) :
    ∀ t ∈ applyCategories jl co txs, t.category ∈ CATEGORIES := by
  unfold applyCategories
  refine catLoop_cat_mem _ _ _ ?_
  intro t ht
  rw [mem_setAllOther_category txs t ht]
  simp [CATEGORIES]

/-! ## Lemmas about deduplication and normalization -/

/-- The first record in a raw chunk result bearing a given dedup key. -/
def firstWithKey (k : String × String × String) : List PyVal → Option PyDict
  | [] => none
  | .vdict d :: rest => if dedupKey d = k then some d else firstWithKey k rest
  | _ :: rest => firstWithKey k rest

lemma dedupLoop_spec : ∀ (l : List PyVal) (seen : List (String × String × String)),
    ∀ t ∈ dedupLoop l seen, ∃ d, t = .vdict d ∧ dedupKey d ∉ seen ∧
      firstWithKey (dedupKey d) l = some d := by
  intro l
  induction l with
  | nil => intro seen t ht; simp [dedupLoop] at ht
  | cons t0 rest ih =>
    intro seen t ht
    cases t0 with
    | vdict d0 =>
      simp only [dedupLoop] at ht
      by_cases hk : dedupKey d0 ∈ seen
      · rw [if_pos hk] at ht
        rcases ih seen t ht with ⟨d, rfl, hns, hf⟩
        refine ⟨d, rfl, hns, ?_⟩
        rw [firstWithKey, if_neg (by intro h; apply hns; rw [← h]; exact hk)]
        exact hf
      · rw [if_neg hk] at ht
        rcases List.mem_cons.mp ht with rfl | ht'
        · exact ⟨d0, rfl, hk, by rw [firstWithKey, if_pos rfl]⟩
        · rcases ih _ t ht' with ⟨d, rfl, hns, hf⟩
          have hne : dedupKey d ≠ dedupKey d0 := by
            intro h
            apply hns
            rw [h]
            exact List.mem_cons_self _ _
          refine ⟨d, rfl, fun h => hns (List.mem_cons_of_mem _ h), ?_⟩
          rw [firstWithKey, if_neg (fun h => hne h.symm)]
          exact hf
    | vstr s =>
      simp only [dedupLoop] at ht
      rcases ih seen t ht with ⟨d, rfl, hns, hf⟩
      exact ⟨d, rfl, hns, hf⟩
    | vint n =>
      simp only [dedupLoop] at ht
      rcases ih seen t ht with ⟨d, rfl, hns, hf⟩
      exact ⟨d, rfl, hns, hf⟩
    | vbool b =>
      simp only [dedupLoop] at ht
      rcases ih seen t ht with ⟨d, rfl, hns, hf⟩
      exact ⟨d, rfl, hns, hf⟩
    | vnull =>
      simp only [dedupLoop] at ht
      rcases ih seen t ht with ⟨d, rfl, hns, hf⟩
      exact ⟨d, rfl, hns, hf⟩
    | vlist xs =>
      simp only [dedupLoop] at ht
      rcases ih seen t ht with ⟨d, rfl, hns, hf⟩
      exact ⟨d, rfl, hns, hf⟩

lemma dedupLoop_nodup : ∀ (l : List PyVal) (seen : List (String × String × String)),
    ((dedupLoop l seen).map pvKey).Nodup := by
  intro l
  induction l with
  | nil => intro seen; simp [dedupLoop]
  | cons t0 rest ih =>
    intro seen
    cases t0 with
    | vdict d0 =>
      simp only [dedupLoop]
      by_cases hk : dedupKey d0 ∈ seen
      · rw [if_pos hk]; exact ih seen
      · rw [if_neg hk]
        simp only [List.map_cons, List.nodup_cons]
        refine ⟨?_, ih _⟩
        intro hmem
        rcases List.mem_map.mp hmem with ⟨t, ht, hkey⟩
        rcases dedupLoop_spec rest _ t ht with ⟨d, rfl, hns, _⟩
        simp only [pvKey] at hkey
        apply hns
        rw [hkey]
        exact List.mem_cons_self _ _
    | vstr s => simp only [dedupLoop]; exact ih seen
    | vint n => simp only [dedupLoop]; exact ih seen
    | vbool b => simp only [dedupLoop]; exact ih seen
    | vnull => simp only [dedupLoop]; exact ih seen
    | vlist xs => simp only [dedupLoop]; exact ih seen

lemma txKey_normalizeTx (d : PyDict) : txKey (normalizeTx d) = dedupKey d := rfl

lemma mem_normalizePass {ts : List PyVal} {t : Tx} (h : t ∈ normalizePass ts) :
    ∃ d, .vdict d ∈ ts ∧ t = normalizeTx d := by
  unfold normalizePass at h
  rcases List.mem_filterMap.mp h with ⟨v, hv, hsome⟩
  cases v with
  | vdict d => exact ⟨d, hv, (Option.some_inj.mp hsome).symm⟩
  | vstr s => simp at hsome
  | vint n => simp at hsome
  | vbool b => simp at hsome
  | vnull => simp at hsome
  | vlist xs => simp at hsome

lemma normalizePass_map_key : ∀ (l : List PyVal), (∀ t ∈ l, ∃ d, t = .vdict d) →
    (normalizePass l).map txKey = l.map pvKey := by
  intro l
  induction l with
  | nil => intro _; rfl
  | cons v rest ih =>
    intro h
    rcases h v (List.mem_cons_self _ _) with ⟨d, rfl⟩
    simp only [normalizePass, List.filterMap_cons, List.map_cons]
    rw [← normalizePass]
    rw [ih (fun t ht => h t (List.mem_cons_of_mem _ ht))]
    rfl

lemma mem_of_map_eq {α β : Type} {g : α → β} {l₁ l₂ : List α} (h : l₁.map g = l₂.map g)
    {t : α} (ht : t ∈ l₁) : ∃ u ∈ l₂, g t = g u := by
  have hm : g t ∈ l₂.map g := h ▸ List.mem_map_of_mem g ht
  rcases List.mem_map.mp hm with ⟨u, hu, he⟩
  exact ⟨u, hu, he.symm⟩

/-- Any member of a run's final list traces back to a normalized member of
the pre-normalization list, with the same non-category fields, and the run
took the main branch. -/
lemma mem_extract_structure {jl : String → Option PyVal} {o : Oracle} {raw : String} {t : Tx}
    (ht : t ∈ extract_and_categorize jl o raw) :
    ∃ u ∈ normalizePass (preNormList jl o (pyStrip raw)), dropCat t = dropCat u := by
  unfold extract_and_categorize at ht
  split at ht
  · simp at ht
  · split at ht
    · simp at ht
    · exact mem_of_map_eq (applyCategories_dropCat _ _ _) ht

/-! ## Chunk-count lemmas -/

lemma chunkLoop_length : ∀ (fuel : Nat) (s : String) (start : Nat),
    pyLen s - start ≤ fuel → start + EXTRACTION_CHUNK_OVERLAP < pyLen s →
    (chunkLoop s start).length = (pyLen s - start + 93999) / 97000 := by
  intro fuel
  induction fuel with
  | zero =>
    intro s start h1 h2
    exfalso
    simp only [EXTRACTION_CHUNK_OVERLAP] at h2
    omega
  | succ n ih =>
    intro s start h1 h2
    rw [chunkLoop]
    split
    · next hle =>
      rw [List.length_singleton]
      simp only [EXTRACTION_TEXT_CAP, EXTRACTION_CHUNK_OVERLAP] at hle h2
      omega
    · next hgt =>
      rw [List.length_cons]
      have h3 : pyLen s - (start + EXTRACTION_TEXT_CAP - EXTRACTION_CHUNK_OVERLAP) ≤ n := by
        simp only [EXTRACTION_TEXT_CAP, EXTRACTION_CHUNK_OVERLAP] at h1 ⊢
        omega
      have h4 : (start + EXTRACTION_TEXT_CAP - EXTRACTION_CHUNK_OVERLAP) +
          EXTRACTION_CHUNK_OVERLAP < pyLen s := by
        simp only [EXTRACTION_TEXT_CAP, EXTRACTION_CHUNK_OVERLAP] at hgt ⊢
        omega
      rw [ih s _ h3 h4]
      simp only [EXTRACTION_TEXT_CAP, EXTRACTION_CHUNK_OVERLAP] at hgt ⊢
      omega

lemma chunksOf_length_small (t : String) (h : pyLen t ≤ EXTRACTION_TEXT_CAP) :
    (chunksOf t).length = 1 := by
  simp [chunksOf, h]

lemma chunksOf_length_big (t : String) (h : EXTRACTION_TEXT_CAP < pyLen t) :
    (chunksOf t).length =
      (pyLen t - EXTRACTION_CHUNK_OVERLAP + (EXTRACTION_TEXT_CAP - EXTRACTION_CHUNK_OVERLAP) - 1) /
        (EXTRACTION_TEXT_CAP - EXTRACTION_CHUNK_OVERLAP) := by
  unfold chunksOf
  rw [if_neg (not_le.mpr h)]
  rw [chunkLoop_length (pyLen t) t 0 (by omega)
    (by simp only [EXTRACTION_CHUNK_OVERLAP, EXTRACTION_TEXT_CAP] at *; omega)]
  simp only [EXTRACTION_TEXT_CAP, EXTRACTION_CHUNK_OVERLAP] at *
  omega

/-! ## Claim C5 — chunk counts -/

/-- **C5, amended**: on input whose trimmed length is *positive* and at most
the 100,000-character cap, exactly one chunk is processed; on longer input
the chunk count is `ceil((len − overlap) / (cap − overlap))`.  (The
amendment: empty or whitespace-only input returns before chunking, so zero
chunks are processed there, not one; see the counterexample.) -/
theorem claim5_chunk_count (s : String) :
    (0 < pyLen (pyStrip s) → pyLen (pyStrip s) ≤ EXTRACTION_TEXT_CAP →
      chunksProcessed s = 1) ∧
    (EXTRACTION_TEXT_CAP < pyLen (pyStrip s) →
      chunksProcessed s =
        (pyLen (pyStrip s) - EXTRACTION_CHUNK_OVERLAP +
            (EXTRACTION_TEXT_CAP - EXTRACTION_CHUNK_OVERLAP) - 1) /
          (EXTRACTION_TEXT_CAP - EXTRACTION_CHUNK_OVERLAP)) := by
  constructor
  · intro h0 hle
    unfold chunksProcessed
    rw [if_neg (by intro he; rw [he] at h0; exact absurd h0 (by decide))]
    exact chunksOf_length_small _ hle
  · intro hgt
    unfold chunksProcessed
    rw [if_neg (by
      intro he
      rw [he] at hgt
      exact absurd hgt (by decide))]
    exact chunksOf_length_big _ hgt

/-- **C5, counterexample**: the claim as stated quantifies over *every*
input of trimmed length at most the cap; the empty input has trimmed
length `0 ≤ cap` yet processes zero chunks (the function returns before
chunking), not one. -/
theorem claim5_counterexample :
    ¬ (∀ s : String, pyLen (pyStrip s) ≤ EXTRACTION_TEXT_CAP → chunksProcessed s = 1) := by
  intro h
  have h0 := h "" (by decide)
  exact absurd h0 (by decide)

theorem claim5_witness :
    0 < pyLen (pyStrip "abc") ∧ pyLen (pyStrip "abc") ≤ EXTRACTION_TEXT_CAP ∧
      chunksProcessed "abc" = 1 :=
  ⟨by decide, by decide, (claim5_chunk_count "abc").1 (by decide) (by decide)⟩

/-! ## Claim C3 — category taxonomy -/

/-- **C3, amended**: every transaction returned by any run has a category
in the fixed 9-value taxonomy; a model-returned category whose
*whitespace-trimmed* form is an exact taxonomy member is kept, a trimmed
case-insensitive match is coerced to the canonical spelling, and any other
value is coerced to `Other`.  (The amendment: the code strips the
model-returned string before matching, so a padded spelling such as
`" groceries "` lands on `Groceries`, not on `Other` as the unstripped
reading of the claim predicts; see the counterexample.) -/
theorem claim3_category_taxonomy :
    (∀ (jl : String → Option PyVal) (o : Oracle) (raw : String),
      ∀ t ∈ extract_and_categorize jl o raw, t.category ∈ CATEGORIES) ∧
    (∀ s : String, pyStrip s ∈ CATEGORIES → coerceCat s = pyStrip s) ∧
    (∀ s : String, ∀ a ∈ CATEGORIES, pyStrip s ∉ CATEGORIES →
      pyLower a = pyLower (pyStrip s) → coerceCat s = a) ∧
    (∀ s : String, pyStrip s ∉ CATEGORIES →
      (∀ a ∈ CATEGORIES, pyLower a ≠ pyLower (pyStrip s)) → coerceCat s = "Other") := by
  refine ⟨?_, ?_, ?_, ?_⟩
  · intro jl o raw t ht
    unfold extract_and_categorize at ht
    split at ht
    · simp at ht
    · split at ht
      · simp at ht
      · exact applyCategories_cat_mem _ _ _ t ht
  · intro s h
    unfold coerceCat
    rw [if_pos h]
  · intro s a ha hnot hlow
    unfold coerceCat
    rw [if_neg hnot, ← hlow]
    have ha' : a = "Groceries" ∨ a = "Utilities" ∨ a = "Shopping" ∨ a = "Transfer" ∨
        a = "Dining" ∨ a = "Transport" ∨ a = "Healthcare" ∨ a = "Entertainment" ∨
        a = "Other" := by simpa [CATEGORIES] using ha
    rcases ha' with rfl | rfl | rfl | rfl | rfl | rfl | rfl | rfl | rfl <;> decide
  · intro s hnot hall
    unfold coerceCat
    rw [if_neg hnot]
    have hnone : CATEGORIES.find? (fun x => pyLower x == pyLower (pyStrip s)) = none := by
      rw [List.find?_eq_none]
      intro x hx
      simpa using hall x hx
    rw [hnone]

/-- The categorization response of the C3 counterexample run: the model
returns the padded category `" groceries "`. -/
def o3cx : Oracle :=
  ⟨fun _ => "[\x7b\"date\":\"1\",\"description\":\"x\",\"amount\":\"2\"\x7d]", none,
   "[\x7b\"category\":\" groceries \"\x7d]"⟩

/-- **C3, counterexample**: the model-returned category `" groceries "`
matches no taxonomy member exactly or case-insensitively (its lowering
keeps the padding), yet the run coerces it to `Groceries`, not `Other` as
the claim states. -/
theorem claim3_counterexample :
    extract_and_categorize jsonLoadsModel o3cx "sometext"
        = [⟨"1", "x", "2", "debit", "Groceries"⟩] ∧
      " groceries " ∉ CATEGORIES ∧
      (∀ a ∈ CATEGORIES, pyLower a ≠ pyLower " groceries ") := by
  refine ⟨by decide, by decide, by decide⟩

theorem claim3_witness :
    ((⟨"1", "x", "2", "debit", "Groceries"⟩ : Tx).category ∈ CATEGORIES) ∧
      coerceCat "DINING" = "Dining" :=
  ⟨claim3_category_taxonomy.1 jsonLoadsModel o3cx "sometext"
      ⟨"1", "x", "2", "debit", "Groceries"⟩ (by decide),
   claim3_category_taxonomy.2.2.1 "DINING" "Dining" (by decide) (by decide) (by decide)⟩

/-! ## Claim C4 — type normalization -/

lemma normalizeTx_type (d : PyDict) :
    (normalizeTx d).type =
      if pyLower (pyStr (dGetD d "type" (.vstr "debit"))) ∈ (["credit", "cr"] : List String)
      then "credit" else "debit" := rfl

/-- **C4, confirmed**: every returned transaction's `type` is `credit` or
`debit`, it agrees with the normalization of a source record of the run
(same date, description, amount and type), and it is `credit` exactly when
that record's stringified `type` value — defaulting to `"debit"` when
absent — lowercases to `credit` or `cr`. -/
theorem claim4_type_normalization :
    ∀ (jl : String → Option PyVal) (o : Oracle) (raw : String),
      ∀ t ∈ extract_and_categorize jl o raw,
        (t.type = "credit" ∨ t.type = "debit") ∧
        ∃ d : PyDict, PyVal.vdict d ∈ preNormList jl o (pyStrip raw) ∧
          dropCat t = dropCat (normalizeTx d) ∧
          (t.type = "credit" ↔
            pyLower (pyStr (dGetD d "type" (.vstr "debit"))) ∈ (["credit", "cr"] : List String)) := by
  intro jl o raw t ht
  rcases mem_extract_structure ht with ⟨u, hu, hdrop⟩
  rcases mem_normalizePass hu with ⟨d, hd, rfl⟩
  have htype : t.type = (normalizeTx d).type :=
    congrArg (fun p : String × String × String × String => p.2.2.2) hdrop
  refine ⟨?_, d, hd, hdrop, ?_⟩
  · rw [htype, normalizeTx_type]
    split
    · exact Or.inl rfl
    · exact Or.inr rfl
  · rw [htype, normalizeTx_type]
    split
    · next h => exact iff_of_true rfl h
    · next h => exact iff_of_false (by decide) h

/-- The extraction response of the C4 witness run: one record whose type
string is `"CR"`. -/
def o4w : Oracle :=
  ⟨fun _ => "[\x7b\"date\":\"1\",\"description\":\"x\",\"amount\":\"2\",\"type\":\"CR\"\x7d]",
   none, ""⟩

theorem claim4_witness :
    ((⟨"1", "x", "2", "credit", "Other"⟩ : Tx)
        ∈ extract_and_categorize jsonLoadsModel o4w "sometext") ∧
      ((⟨"1", "x", "2", "credit", "Other"⟩ : Tx).type = "credit" ∨
        (⟨"1", "x", "2", "credit", "Other"⟩ : Tx).type = "debit") :=
  ⟨by decide,
   (claim4_type_normalization jsonLoadsModel o4w "sometext" _ (by decide)).1⟩

/-! ## Claim C6 — degradation on malformed model output -/

lemma chunkParsed_eq_nil {jl : String → Option PyVal} {out : String}
    (h : ∀ xs, jl (extractJsonBlock out) ≠ some (.vlist xs)) :
    chunkParsed jl out = [] := by
  unfold chunkParsed
  split
  · next xs heq => exact absurd heq (h xs)
  · rfl

lemma allRawTx_eq_nil {jl : String → Option PyVal} {o : Oracle} {tt : String}
    (h : ∀ i, ∀ xs, jl (extractJsonBlock (o.extractOut i)) ≠ some (.vlist xs)) :
    allRawTx jl o tt = [] := by
  unfold allRawTx
  rw [List.flatten_eq_nil_iff]
  intro l hl
  rcases List.mem_map.mp hl with ⟨p, _, rfl⟩
  exact chunkParsed_eq_nil (h p.1)

lemma fallbackResult_eq_none {jl : String → Option PyVal} {fb : Option String}
    (h : fb = none ∨ ∃ s, fb = some s ∧ (∀ xs, jl (fallbackJsonStr s) ≠ some (.vlist xs)) ∧
      parseTransactionObjects jl s = []) :
    fallbackResult jl fb = none := by
  rcases h with rfl | ⟨s, rfl, hl, hp⟩
  · rfl
  · unfold fallbackResult
    dsimp only
    cases hv : jl (fallbackJsonStr s) with
    | none => simp [hp]
    | some v =>
      cases v with
      | vlist xs => exact absurd hv (hl xs)
      | vstr st => rfl
      | vint n => rfl
      | vbool b => rfl
      | vnull => rfl
      | vdict d => rfl

lemma preNormList_eq_nil {jl : String → Option PyVal} {o : Oracle} {tt : String}
    (h1 : allRawTx jl o tt = []) (h2 : fallbackResult jl o.fallbackOut = none) :
    preNormList jl o tt = [] := by
  unfold preNormList
  rw [h1, h2]
  split <;> rfl

/-- **C6, amended**: the function is total over all model responses
(inherent to the embedding), and it degrades rather than failing: a
categorization response that does not parse to a JSON array leaves every
returned transaction categorized `Other`, and when no extraction response
— chunk or fallback — yields a JSON array and the fallback response
contains no complete transaction-shaped JSON object, the function returns
the empty list.  (The amendment: the fallback pass can still rescue
individual complete JSON objects out of a response that is not valid
JSON, in which case the result is neither empty nor all-`Other`; see the
counterexample.) -/
theorem claim6_malformed_output_degrades :
    (∀ (jl : String → Option PyVal) (o : Oracle) (raw : String),
      (∀ xs, jl (extractJsonBlock o.catOut) ≠ some (.vlist xs)) →
      ∀ t ∈ extract_and_categorize jl o raw, t.category = "Other") ∧
    (∀ (jl : String → Option PyVal) (o : Oracle) (raw : String),
      (∀ i, ∀ xs, jl (extractJsonBlock (o.extractOut i)) ≠ some (.vlist xs)) →
      (o.fallbackOut = none ∨
        ∃ s, o.fallbackOut = some s ∧ (∀ xs, jl (fallbackJsonStr s) ≠ some (.vlist xs)) ∧
          parseTransactionObjects jl s = []) →
      extract_and_categorize jl o raw = []) := by
  constructor
  · intro jl o raw hcat t ht
    have hc : categorizedOf jl o.catOut = [] := by
      unfold categorizedOf
      split
      · next xs heq => exact absurd heq (hcat xs)
      · rfl
    unfold extract_and_categorize at ht
    split at ht
    · simp at ht
    · split at ht
      · simp at ht
      · unfold applyCategories at ht
        rw [hc] at ht
        exact mem_setAllOther_category _ t ht
  · intro jl o raw hch hfb
    have hpre : preNormList jl o (pyStrip raw) = [] :=
      preNormList_eq_nil (allRawTx_eq_nil hch) (fallbackResult_eq_none hfb)
    unfold extract_and_categorize
    rw [hpre]
    split <;> rfl

/-- A 401-character input: long enough (over 400 trimmed characters) to
trigger the zero-result fallback extraction. -/
def cxLong : String := String.mk (List.replicate 401 'a')

/-- The C6 counterexample responses: the chunk response holds no JSON at
all, the fallback response is a truncated (invalid) JSON array holding one
complete transaction-shaped object, and the categorization response
assigns `Dining`. -/
def o6cx : Oracle :=
  ⟨fun _ => "zzz", some "[\x7b\"amount\": \"5\"\x7d",
   "[\x7b\"date\":\"\",\"description\":\"\",\"amount\":\"5\",\"type\":\"debit\",\"category\":\"Dining\"\x7d]"⟩

lemma ne_some_of_eq_none {α : Type} {x : Option α} (h : x = none) :
    ∀ y : α, x ≠ some y := by
  intro y hy
  rw [h] at hy
  cases hy

set_option maxRecDepth 20000 in
/-- **C6, counterexample**: with every extraction response invalid as JSON
(the chunk response holds no JSON; the fallback response is a truncated
array), the run neither returns the empty list nor degrades to `Other`:
the object-rescue path recovers one transaction and the categorization
pass then labels it `Dining`. -/
theorem claim6_counterexample :
    ¬ (∀ (jl : String → Option PyVal) (o : Oracle) (raw : String),
        (∀ i, jl (o.extractOut i) = none ∧ jl (extractJsonBlock (o.extractOut i)) = none) →
        (∀ s, o.fallbackOut = some s →
          jl s = none ∧ jl (fallbackJsonStr s) = none) →
        extract_and_categorize jl o raw = [] ∨
          ∀ t ∈ extract_and_categorize jl o raw, t.category = "Other") := by
  intro h
  have hres : extract_and_categorize jsonLoadsModel o6cx cxLong
      = [⟨"", "", "5", "debit", "Dining"⟩] := by rfl
  have h2 : ∀ s, o6cx.fallbackOut = some s →
      jsonLoadsModel s = none ∧ jsonLoadsModel (fallbackJsonStr s) = none := by
    intro s hs
    have hs' : ("[\x7b\"amount\": \"5\"\x7d" : String) = s := Option.some_inj.mp hs
    rw [← hs']
    exact ⟨rfl, rfl⟩
  rcases h jsonLoadsModel o6cx cxLong (fun i => ⟨rfl, rfl⟩) h2 with hnil | hoth
  · rw [hres] at hnil
    exact absurd hnil (by decide)
  · have ho := hoth ⟨"", "", "5", "debit", "Dining"⟩ (by rw [hres]; exact List.mem_singleton.mpr rfl)
    exact absurd ho (by decide)

/-- The C6 witness responses: no response parses to a JSON array anywhere,
and the fallback response holds no complete JSON object either. -/
def o6w : Oracle := ⟨fun _ => "zzz", some "ww", "vv"⟩

theorem claim6_witness :
    (∀ t ∈ extract_and_categorize jsonLoadsModel o6w cxLong, t.category = "Other") ∧
      extract_and_categorize jsonLoadsModel o6w cxLong = [] :=
  ⟨claim6_malformed_output_degrades.1 jsonLoadsModel o6w cxLong
      (fun xs => ne_some_of_eq_none rfl (PyVal.vlist xs)),
   claim6_malformed_output_degrades.2 jsonLoadsModel o6w cxLong
      (fun _ xs => ne_some_of_eq_none rfl (PyVal.vlist xs))
      (Or.inr ⟨"ww", rfl, fun xs => ne_some_of_eq_none rfl (PyVal.vlist xs), rfl⟩)⟩

/-! ## Claim C2 — deduplication -/

/-- Projection from the four untouched fields to the dedup key. -/
def keyOfQuad (p : String × String × String × String) : String × String × String :=
  (p.1, p.2.1, p.2.2.1)

lemma txKey_eq_keyOfQuad (t : Tx) : txKey t = keyOfQuad (dropCat t) := rfl

lemma map_txKey_applyCategories (jl : String → Option PyVal) (co : String) (txs : List Tx) :
    (applyCategories jl co txs).map txKey = txs.map txKey := by
  have h1 : (applyCategories jl co txs).map txKey
      = ((applyCategories jl co txs).map dropCat).map keyOfQuad := by
    rw [List.map_map]
    rfl
  rw [h1, applyCategories_dropCat, List.map_map]
  rfl

/-- **C2, amended**: whenever the deduplicated chunk-extraction result is
non-empty — so the zero-result fallback is not taken — the final list has
pairwise-distinct `(date, description, amount)` keys, and each final entry
agrees, on all fields the categorization pass cannot touch, with the
normalization of the *first* raw chunk record bearing its key.  (The
amendment: when the chunk pass extracts nothing and the fallback pass
supplies the transactions, no deduplication is applied to them; see the
counterexample.) -/
theorem claim2_dedup_first_occurrence :
    ∀ (jl : String → Option PyVal) (o : Oracle) (raw : String),
      dedupLoop (allRawTx jl o (pyStrip raw)) [] ≠ [] →
      ((extract_and_categorize jl o raw).map txKey).Nodup ∧
      ∀ t ∈ extract_and_categorize jl o raw,
        ∃ d, firstWithKey (txKey t) (allRawTx jl o (pyStrip raw)) = some d ∧
          dropCat t = dropCat (normalizeTx d) := by
  intro jl o raw hne
  by_cases hemp : pyStrip raw = ""
  · have hfin : extract_and_categorize jl o raw = [] := by
      unfold extract_and_categorize
      rw [if_pos hemp]
    rw [hfin]
    exact ⟨List.nodup_nil, by simp⟩
  · have hpre : preNormList jl o (pyStrip raw) = dedupLoop (allRawTx jl o (pyStrip raw)) [] := by
      unfold preNormList
      rw [if_neg (fun hc => hne (List.length_eq_zero.mp hc.1))]
    have hne' : ¬ ((preNormList jl o (pyStrip raw)).isEmpty = true) := by
      rw [hpre]
      simpa [List.isEmpty_iff] using hne
    have hfin : extract_and_categorize jl o raw
        = applyCategories jl o.catOut (normalizePass (preNormList jl o (pyStrip raw))) := by
      unfold extract_and_categorize
      rw [if_neg hemp, if_neg hne']
    have hdicts : ∀ t ∈ preNormList jl o (pyStrip raw), ∃ d, t = PyVal.vdict d := by
      intro t ht
      rw [hpre] at ht
      rcases dedupLoop_spec _ _ t ht with ⟨d, hd, _, _⟩
      exact ⟨d, hd⟩
    constructor
    · rw [hfin, map_txKey_applyCategories, normalizePass_map_key _ hdicts, hpre]
      exact dedupLoop_nodup _ _
    · intro t ht
      rw [hfin] at ht
      rcases mem_of_map_eq (applyCategories_dropCat _ _ _) ht with ⟨u, hu, hdu⟩
      rcases mem_normalizePass hu with ⟨d0, hd0, rfl⟩
      rw [hpre] at hd0
      rcases dedupLoop_spec _ _ _ hd0 with ⟨d, heq, _, hf⟩
      injection heq with heq'
      subst heq'
      have hkey : txKey t = dedupKey d0 := by
        rw [txKey_eq_keyOfQuad, hdu]
        rfl
      rw [hkey]
      exact ⟨d0, hf, hdu⟩

/-- The C2 counterexample responses: the chunk response holds no JSON, the
fallback response is a valid JSON array holding the *same* record twice. -/
def o2cx : Oracle :=
  ⟨fun _ => "zzz",
   some ("[\x7b\"date\":\"d\",\"description\":\"x\",\"amount\":\"1\"\x7d," ++
     "\x7b\"date\":\"d\",\"description\":\"x\",\"amount\":\"1\"\x7d]"),
   ""⟩

set_option maxRecDepth 20000 in
/-- **C2, counterexample**: the fallback extraction replaces the
transaction list without deduplicating it, so a run whose chunk pass
extracts nothing and whose fallback response repeats one record returns a
final list carrying the same `(date, description, amount)` key twice. -/
theorem claim2_counterexample :
    ¬ (∀ (jl : String → Option PyVal) (o : Oracle) (raw : String),
        ((extract_and_categorize jl o raw).map txKey).Nodup) := by
  intro h
  have hres : extract_and_categorize jsonLoadsModel o2cx cxLong
      = [⟨"d", "x", "1", "debit", "Other"⟩, ⟨"d", "x", "1", "debit", "Other"⟩] := by rfl
  have hh := h jsonLoadsModel o2cx cxLong
  rw [hres] at hh
  exact absurd hh (by decide)

/-- The C2 witness responses: the single chunk response parses to one
transaction record. -/
def o2w : Oracle :=
  ⟨fun _ => "[\x7b\"date\":\"1\",\"description\":\"x\",\"amount\":\"2\"\x7d]", none, ""⟩

theorem claim2_witness :
    dedupLoop (allRawTx jsonLoadsModel o2w (pyStrip "sometext")) [] ≠ [] ∧
      ((extract_and_categorize jsonLoadsModel o2w "sometext").map txKey).Nodup :=
  ⟨fun hcon => List.noConfusion
      (Eq.trans
        (rfl :
          ([PyVal.vdict [("date", PyVal.vstr "1"), ("description", PyVal.vstr "x"),
            ("amount", PyVal.vstr "2")]] : List PyVal)
            = dedupLoop (allRawTx jsonLoadsModel o2w (pyStrip "sometext")) []) hcon),
   (claim2_dedup_first_occurrence jsonLoadsModel o2w "sometext"
      (fun hcon => List.noConfusion
        (Eq.trans
          (rfl :
            ([PyVal.vdict [("date", PyVal.vstr "1"), ("description", PyVal.vstr "x"),
              ("amount", PyVal.vstr "2")]] : List PyVal)
              = dedupLoop (allRawTx jsonLoadsModel o2w (pyStrip "sometext")) []) hcon))).1⟩

/-! ## Claim C9 — categorization matching -/

lemma modIdx_get?_ne {α : Type} (f : α → α) :
    ∀ (i : Nat) (l : List α) (j : Nat), j ≠ i → (modIdx i f l).get? j = l.get? j := by
  intro i l
  induction l generalizing i with
  | nil => intro j h; simp [modIdx]
  | cons x xs ih =>
    intro j h
    cases i with
    | zero =>
      cases j with
      | zero => exact absurd rfl h
      | succ m => simp [modIdx]
    | succ n =>
      cases j with
      | zero => simp [modIdx]
      | succ m =>
        simp only [modIdx, List.get?_cons_succ]
        exact ih n m (fun he => h (congrArg Nat.succ he))

lemma applyCatStep_length (txs : List Tx) (i : Nat) (c : PyVal) :
    (applyCatStep txs i c).length = txs.length := by
  have h := congrArg List.length (applyCatStep_dropCat txs i c)
  simpa using h

lemma catLoop_length (cs : List PyVal) : ∀ (txs : List Tx) (i : Nat),
    (catLoop txs cs i).length = txs.length := by
  induction cs with
  | nil => intro txs i; rfl
  | cons c rest ih =>
    intro txs i
    simp only [catLoop]
    rw [ih, applyCatStep_length]

lemma applyCatStep_get?_lt {txs : List Tx} {i : Nat} (c : PyVal) (hi : i < txs.length)
    (j : Nat) (hne : j ≠ i) : (applyCatStep txs i c).get? j = txs.get? j := by
  cases c with
  | vdict d =>
    simp only [applyCatStep]
    split
    · exact modIdx_get?_ne _ i txs j hne
    · rfl
  | vstr s => rfl
  | vint n => rfl
  | vbool b => rfl
  | vnull => rfl
  | vlist xs => rfl

lemma catLoop_get?_high : ∀ (cs : List PyVal) (txs : List Tx) (i0 j : Nat),
    i0 + cs.length ≤ j → j < txs.length → (catLoop txs cs i0).get? j = txs.get? j := by
  intro cs
  induction cs with
  | nil => intro txs i0 j _ _; rfl
  | cons c rest ih =>
    intro txs i0 j hle hlt
    simp only [List.length_cons] at hle
    simp only [catLoop]
    rw [ih (applyCatStep txs i0 c) (i0 + 1) j (by omega)
      (by rw [applyCatStep_length]; exact hlt)]
    exact applyCatStep_get?_lt c (by omega) j (by omega)

/-- **C9, amended**: categorization results are matched back primarily by
positional index, so when the returned list is shorter than the input
every input index with no corresponding output keeps the default `Other`;
a returned entry whose index is beyond the input is matched to the *first*
input transaction whose *whitespace-trimmed* description and amount equal
the entry's trimmed description and amount, and assigns nothing when no
such input exists.  (The amendment: the code strips both sides before
comparing, where the claim demands exact string equality; see the
counterexample.) -/
theorem claim9_categorization_matching :
    (∀ (jl : String → Option PyVal) (o : Oracle) (raw : String) (j : Nat),
      (categorizedOf jl o.catOut).length ≤ j →
      ∀ t : Tx, (extract_and_categorize jl o raw).get? j = some t → t.category = "Other") ∧
    (∀ (txs : List Tx) (i : Nat) (d : PyDict), txs.length ≤ i →
      (∀ t ∈ txs, trimMatch d t = false) → applyCatStep txs i (.vdict d) = txs) ∧
    (∀ (txs : List Tx) (i : Nat) (d : PyDict) (j : Nat) (hj : j < txs.length),
      txs.length ≤ i → (dGet d "category").isSome = true →
      trimMatch d (txs.get ⟨j, hj⟩) = true →
      (∀ j' (hj' : j' < j), trimMatch d (txs.get ⟨j', Nat.lt_trans hj' hj⟩) = false) →
      applyCatStep txs i (.vdict d) =
        modIdx j (fun t => { t with category := coerceCat (pyStr (dGetD d "category" (.vstr ""))) })
          txs) := by
  refine ⟨?_, ?_, ?_⟩
  · intro jl o raw j hge t hsome
    unfold extract_and_categorize at hsome
    split at hsome
    · simp at hsome
    · split at hsome
      · simp at hsome
      · unfold applyCategories at hsome
        by_cases hlt : j < (setAllOther (normalizePass (preNormList jl o (pyStrip raw)))).length
        · rw [catLoop_get?_high _ _ 0 j (by omega) hlt] at hsome
          unfold setAllOther at hsome
          rw [List.get?_map] at hsome
          rcases Option.map_eq_some'.mp hsome with ⟨u, _, hut⟩
          rw [← hut]
        · have hnone : (catLoop (setAllOther (normalizePass (preNormList jl o (pyStrip raw))))
              (categorizedOf jl o.catOut) 0).get? j = none := by
            rw [List.get?_eq_none]
            rw [catLoop_length]
            omega
          rw [hnone] at hsome
          cases hsome
  · intro txs i d hle hmatch
    simp only [applyCatStep]
    split
    · rw [if_neg (Nat.not_lt.mpr hle)]
      rw [List.findIdx?_eq_none_iff.mpr hmatch]
    · rfl
  · intro txs i d j hj hle hcat hp hfirst
    have hfind : txs.findIdx? (trimMatch d) = some j := by
      rw [List.findIdx?_eq_some_iff_getElem]
      refine ⟨hj, ?_, ?_⟩
      · have hp' := hp
        rw [List.get_eq_getElem] at hp'
        exact hp'
      · intro j' hj'
        have hf' := hfirst j' hj'
        rw [List.get_eq_getElem] at hf'
        simp [hf']
    simp only [applyCatStep]
    rw [if_pos hcat, if_neg (Nat.not_lt.mpr hle), hfind]

/-- The C9 counterexample responses: one extracted transaction with
description `" A"`; the categorization response has two entries, the
second (an index beyond the single input) carrying description `"A"` —
equal to the input's description only after trimming. -/
def o9cx : Oracle :=
  ⟨fun _ => "[\x7b\"date\":\"1\",\"description\":\" A\",\"amount\":\"1\"\x7d]", none,
   ("[\x7b\"category\":\"Dining\"\x7d," ++
    "\x7b\"description\":\"A\",\"amount\":\"1\",\"category\":\"Transport\"\x7d]")⟩

/-- **C9, counterexample**: the out-of-range returned entry's description
`"A"` is *not* exactly equal to the input's description `" A"`, so under
the claim's exact-equality matching it would assign nothing and the
positional category `Dining` would survive; the code strips both sides,
matches, and overwrites the category with `Transport`. -/
theorem claim9_counterexample :
    extract_and_categorize jsonLoadsModel o9cx "sometext"
        = [⟨"1", " A", "1", "debit", "Transport"⟩] ∧
      categorizedOf jsonLoadsModel o9cx.catOut =
        [PyVal.vdict [("category", PyVal.vstr "Dining")],
         PyVal.vdict [("description", PyVal.vstr "A"), ("amount", PyVal.vstr "1"),
           ("category", PyVal.vstr "Transport")]] ∧
      (" A" : String) ≠ "A" :=
  ⟨by decide, rfl, by decide⟩

/-- The C9 witness responses: two extracted transactions but a
categorization response holding a single entry, so input index 1 has no
corresponding output index. -/
def o9w : Oracle :=
  ⟨fun _ => ("[\x7b\"date\":\"1\",\"description\":\"x\",\"amount\":\"2\"\x7d," ++
     "\x7b\"date\":\"2\",\"description\":\"y\",\"amount\":\"3\"\x7d]"), none,
   "[\x7b\"category\":\"Dining\"\x7d]"⟩

theorem claim9_witness :
    (categorizedOf jsonLoadsModel o9w.catOut).length ≤ 1 ∧
      (extract_and_categorize jsonLoadsModel o9w "sometext").get? 1
        = some ⟨"2", "y", "3", "debit", "Other"⟩ ∧
      (⟨"2", "y", "3", "debit", "Other"⟩ : Tx).category = "Other" :=
  ⟨by decide, by decide,
   claim9_categorization_matching.1 jsonLoadsModel o9w "sometext" 1 (by decide) _ (by decide)⟩

/-! ## `csv_export.py` — `transactions_to_csv`

The writer mirrors `csv.DictWriter` with the default dialect: comma
delimiter, minimal quoting (a cell is quoted iff it contains the
delimiter, the quote character, or a line-terminator character), quotes
doubled, rows terminated by CR LF — except the empty-input case, which the
source returns as a literal header string terminated by a bare LF. -/

/-- Minimal quoting test of the default csv dialect. -/
def csvNeedsQuote (f : List Char) : Bool :=
  f.any (fun c => c = ',' ∨ c = '"' ∨ c = '\r' ∨ c = '\n')

/-- Double every quote character. -/
def csvEscape : List Char → List Char
  | [] => []
  | c :: rest => if c = '"' then '"' :: '"' :: csvEscape rest else c :: csvEscape rest

/-- Render one cell: quoted with doubled quotes when needed, verbatim
otherwise. -/
def csvField (f : List Char) : List Char :=
  if csvNeedsQuote f then '"' :: (csvEscape f ++ ['"']) else f

/-- Comma-join. -/
def joinComma : List (List Char) → List Char
  | [] => []
  | [f] => f
  | f :: g :: fs => f ++ ',' :: joinComma (g :: fs)

/-- One CSV row: quoted cells comma-joined, CR LF terminated. -/
def csvRow (fs : List (List Char)) : List Char := joinComma (fs.map csvField) ++ ['\r', '\n']

/-- The fixed column order of the exporter. -/
def CSV_FIELDNAMES : List String := ["date", "description", "amount", "type", "category"]

/-- The csv module's conversion of a cell value: `None` renders empty,
every other value via `str`. -/
def csvCell : PyVal → String
  | .vnull => ""
  | v => pyStr v

/-- The five cell strings of one transaction row, fields read with
default `""`, in the fixed column order. -/
def txRowStrs (row : PyDict) : List String :=
  CSV_FIELDNAMES.map (fun k => csvCell (dGetD row k (.vstr "")))

/-- `transactions_to_csv`: the bare header line for an empty list, else
the header row followed by one row per transaction in input order. -/
def transactions_to_csv (rows : List PyDict) : String :=
  if rows.isEmpty then "date,description,amount,type,category\n"
  else String.mk (csvRow (CSV_FIELDNAMES.map String.toList) ++
    (rows.map (fun r => csvRow ((txRowStrs r).map String.toList))).flatten)

/-! ## A standard CSV parser (the spec side of the round-trip claim)

Modelled from the spec: "a standard CSV parser over the five fixed
columns" — quote-aware field scanning, comma separation, records
terminated by CR LF, bare LF, bare CR, or end of input, the first record
being the header. -/

/-- Quoted-field body: doubled quotes decode to one quote, a lone quote
closes the field. -/
def parseQuoted : List Char → List Char × List Char
  | [] => ([], [])
  | c :: rest =>
    if c = '"' then
      match rest with
      | c2 :: rest2 =>
        if c2 = '"' then ('"' :: (parseQuoted rest2).1, (parseQuoted rest2).2)
        else ([], rest)
      | [] => ([], [])
    else (c :: (parseQuoted rest).1, (parseQuoted rest).2)

/-- Unquoted field: scan to the next delimiter or terminator. -/
def parseFieldRaw : List Char → List Char × List Char
  | [] => ([], [])
  | c :: rest =>
    if c = ',' ∨ c = '\r' ∨ c = '\n' then ([], c :: rest)
    else ((c :: (parseFieldRaw rest).1), (parseFieldRaw rest).2)

/-- One field: quoted when it opens with a quote, raw otherwise. -/
def parseField (cs : List Char) : List Char × List Char :=
  if cs.head? = some '"' then parseQuoted cs.tail else parseFieldRaw cs

/-- One record (fuel bounds the number of fields): fields separated by
commas, terminated by CR LF, bare LF, bare CR, or end of input. -/
def parseRecordF : Nat → List Char → List (List Char) × List Char
  | 0, cs => ([(parseField cs).1], [])
  | fuel + 1, cs =>
    if (parseField cs).2.head? = some ',' then
      ((parseField cs).1 :: (parseRecordF fuel (parseField cs).2.tail).1,
       (parseRecordF fuel (parseField cs).2.tail).2)
    else if (parseField cs).2.head? = some '\r' then
      if (parseField cs).2.tail.head? = some '\n'
      then ([(parseField cs).1], (parseField cs).2.tail.tail)
      else ([(parseField cs).1], (parseField cs).2.tail)
    else if (parseField cs).2.head? = some '\n' then
      ([(parseField cs).1], (parseField cs).2.tail)
    else ([(parseField cs).1], [])

/-- All records (fuel bounds the number of records). -/
def parseRecordsF : Nat → List Char → List (List (List Char))
  | 0, _ => []
  | fuel + 1, cs =>
    if cs.isEmpty then []
    else (parseRecordF (cs.length + 1) cs).1 ::
      parseRecordsF fuel (parseRecordF (cs.length + 1) cs).2

/-- The records of a CSV document, as strings. -/
def parseCSVRecords (s : String) : List (List String) :=
  (parseRecordsF (s.toList.length + 1) s.toList).map (fun r => r.map (fun f => String.mk f))

/-- Modelled from the spec: parse a CSV document over the five fixed
columns — drop the header record and read each remaining record's cells
positionally into a transaction. -/
def parseCSV (s : String) : List Tx :=
  match parseCSVRecords s with
  | [] => []
  | _ :: rows =>
    rows.map (fun r =>
      { date := r.getD 0 "", description := r.getD 1 "", amount := r.getD 2 "",
        type := r.getD 3 "", category := r.getD 4 "" })

/-- Modelled from the spec: the normalization of the round-trip claim —
the five-field string projection of a transaction row (missing fields
as the empty string). -/
def normalizeRow (row : PyDict) : Tx :=
  { date := csvCell (dGetD row "date" (.vstr ""))
    description := csvCell (dGetD row "description" (.vstr ""))
    amount := csvCell (dGetD row "amount" (.vstr ""))
    type := csvCell (dGetD row "type" (.vstr ""))
    category := csvCell (dGetD row "category" (.vstr "")) }

/-! ## Round-trip lemmas for the CSV writer and parser -/

/-- The suffix after one serialized cell: empty, or opening with a
delimiter or terminator. -/
def startsDelim : List Char → Prop
  | [] => True
  | c :: _ => c = ',' ∨ c = '\r' ∨ c = '\n'

lemma parseQuoted_escape : ∀ (f rest : List Char), rest.head? ≠ some '"' →
    parseQuoted (csvEscape f ++ '"' :: rest) = (f, rest) := by
  intro f
  induction f with
  | nil =>
    intro rest h
    cases rest with
    | nil => rfl
    | cons r rs =>
      have hr : ¬ r = '"' := by simpa using h
      show parseQuoted ('"' :: r :: rs) = ([], r :: rs)
      rw [parseQuoted.eq_def]
      simp [hr]
  | cons c f' ih =>
    intro rest h
    by_cases hc : c = '"'
    · subst hc
      have he : csvEscape ('"' :: f') = '"' :: '"' :: csvEscape f' := by
        simp [csvEscape]
      rw [he, List.cons_append, List.cons_append]
      rw [parseQuoted.eq_def]
      simp [ih rest h]
    · have he : csvEscape (c :: f') = c :: csvEscape f' := by
        simp [csvEscape, hc]
      rw [he, List.cons_append]
      rw [parseQuoted.eq_def]
      simp [hc, ih rest h]

lemma parseFieldRaw_append : ∀ (f rest : List Char),
    (∀ c ∈ f, ¬(c = ',' ∨ c = '\r' ∨ c = '\n')) → startsDelim rest →
    parseFieldRaw (f ++ rest) = (f, rest) := by
  intro f
  induction f with
  | nil =>
    intro rest _ hr
    cases rest with
    | nil => rfl
    | cons r rs =>
      have hr' : r = ',' ∨ r = '\r' ∨ r = '\n' := hr
      simp only [List.nil_append, parseFieldRaw, if_pos hr']
  | cons c f' ih =>
    intro rest hf hr
    have hc := hf c (List.mem_cons_self _ _)
    simp only [List.cons_append, parseFieldRaw, if_neg hc, List.append_eq]
    rw [ih rest (fun x hx => hf x (List.mem_cons_of_mem _ hx)) hr]

lemma parseField_csvField (f rest : List Char) (hd : startsDelim rest)
    (hq : rest.head? ≠ some '"') :
    parseField (csvField f ++ rest) = (f, rest) := by
  unfold csvField
  by_cases hn : csvNeedsQuote f
  · rw [if_pos hn]
    have hassoc : ('"' :: (csvEscape f ++ ['"'])) ++ rest
        = '"' :: (csvEscape f ++ ('"' :: rest)) := by
      simp
    rw [hassoc]
    unfold parseField
    rw [if_pos (by rfl)]
    exact parseQuoted_escape f rest hq
  · rw [if_neg hn]
    have hclean : ∀ c ∈ f, ¬(c = ',' ∨ c = '"' ∨ c = '\r' ∨ c = '\n') := by
      intro c hc hor
      have : csvNeedsQuote f = true := by
        unfold csvNeedsQuote
        rw [List.any_eq_true]
        exact ⟨c, hc, by simpa using hor⟩
      exact hn this
    unfold parseField
    cases f with
    | nil =>
      simp only [List.nil_append]
      cases rest with
      | nil => rfl
      | cons r rs =>
        have hr : ¬ r = '"' := by simpa using hq
        rw [if_neg (by simpa using hr)]
        exact parseFieldRaw_append [] (r :: rs) (by simp) hd
    | cons c f' =>
      have hc := hclean c (List.mem_cons_self _ _)
      rw [if_neg (by
        simp only [List.cons_append, List.head?_cons]
        intro he
        exact hc (Or.inr (Or.inl (Option.some_inj.mp he))))]
      exact parseFieldRaw_append (c :: f') rest
        (fun x hx => fun hor => hclean x hx (by tauto)) hd

lemma parseRecordF_row : ∀ (fs : List (List Char)) (fuel : Nat) (tail : List Char),
    fs ≠ [] → fs.length ≤ fuel →
    parseRecordF fuel (csvRow fs ++ tail) = (fs, tail) := by
  intro fs
  induction fs with
  | nil => intro fuel tail h _; exact absurd rfl h
  | cons f fs' ih =>
    intro fuel tail _ hlen
    cases fs' with
    | nil =>
      cases fuel with
      | zero => simp at hlen
      | succ k =>
        have hinput : csvRow [f] ++ tail = csvField f ++ ('\r' :: '\n' :: tail) := by
          simp [csvRow, joinComma]
        rw [hinput]
        have hpf := parseField_csvField f ('\r' :: '\n' :: tail)
          (Or.inr (Or.inl rfl)) (by simp)
        simp only [parseRecordF]
        rw [hpf]
        simp
    | cons g fs'' =>
      cases fuel with
      | zero => simp at hlen
      | succ k =>
        have hinput : csvRow (f :: g :: fs'') ++ tail
            = csvField f ++ (',' :: (csvRow (g :: fs'') ++ tail)) := by
          simp [csvRow, joinComma]
        rw [hinput]
        have hpf := parseField_csvField f (',' :: (csvRow (g :: fs'') ++ tail))
          (Or.inl rfl) (by simp)
        simp only [parseRecordF]
        rw [hpf]
        simp only [List.length_cons] at hlen
        have hrec := ih k tail (by simp) (by simp only [List.length_cons]; omega)
        simp [hrec]

lemma joinComma_length : ∀ (l : List (List Char)), l.length ≤ (joinComma l).length + 1 := by
  intro l
  induction l with
  | nil => simp [joinComma]
  | cons f rest ih =>
    cases rest with
    | nil => simp [joinComma]
    | cons g fs =>
      simp only [joinComma, List.length_append, List.length_cons] at ih ⊢
      omega

lemma csvRow_length_ge (fs : List (List Char)) : fs.length ≤ (csvRow fs).length := by
  have h := joinComma_length (fs.map csvField)
  simp only [csvRow, List.length_append, List.length_map, List.length_cons,
    List.length_nil] at h ⊢
  omega

lemma flatten_length_ge (ls : List (List Char)) (h : ∀ l ∈ ls, 0 < l.length) :
    ls.length ≤ ls.flatten.length := by
  induction ls with
  | nil => simp
  | cons l rest ih =>
    simp only [List.flatten_cons, List.length_append, List.length_cons]
    have h1 := h l (List.mem_cons_self _ _)
    have h2 := ih (fun x hx => h x (List.mem_cons_of_mem _ hx))
    omega

lemma parseRecordsF_rows : ∀ (recs : List (List (List Char))) (fuel : Nat),
    recs.length ≤ fuel → (∀ r ∈ recs, r ≠ []) →
    parseRecordsF fuel ((recs.map csvRow).flatten) = recs := by
  intro recs
  induction recs with
  | nil =>
    intro fuel _ _
    cases fuel with
    | zero => rfl
    | succ k => rfl
  | cons rec rest ih =>
    intro fuel hlen hne
    cases fuel with
    | zero => simp at hlen
    | succ k =>
      simp only [List.map_cons, List.flatten_cons]
      simp only [parseRecordsF]
      rw [if_neg (by
        simp only [List.isEmpty_eq_true, List.append_eq_nil]
        intro ⟨h1, _⟩
        have := csvRow_length_ge rec
        rw [h1] at this
        simp at this
        exact hne rec (List.mem_cons_self _ _) this)]
      have hfuel : rec.length ≤ (csvRow rec ++ ((rest.map csvRow).flatten)).length + 1 := by
        have := csvRow_length_ge rec
        simp only [List.length_append]
        omega
      rw [parseRecordF_row rec _ _ (hne rec (List.mem_cons_self _ _)) hfuel]
      simp only [List.length_cons] at hlen
      rw [ih k (by omega) (fun r hr => hne r (List.mem_cons_of_mem _ hr))]

lemma csvRow_length_pos (fs : List (List Char)) : 0 < (csvRow fs).length := by
  simp [csvRow]

lemma toList_mk (l : List Char) : (String.mk l).toList = l := rfl

/-- The character stream of a non-empty export, as the flattening of its
serialized records: the header record then one record per row. -/
lemma toCSV_cons_toList (r0 : PyDict) (rs : List PyDict) :
    (transactions_to_csv (r0 :: rs)).toList
      = ((((CSV_FIELDNAMES.map String.toList) ::
          (r0 :: rs).map (fun r => (txRowStrs r).map String.toList)).map csvRow)).flatten := by
  unfold transactions_to_csv
  rw [if_neg (by simp)]
  rw [toList_mk]
  simp [List.map_map, Function.comp_def]

/-- Parsing a non-empty export recovers exactly the header record and the
per-row records. -/
lemma parseRecordsF_toCSV (r0 : PyDict) (rs : List PyDict) :
    parseRecordsF ((transactions_to_csv (r0 :: rs)).toList.length + 1)
        (transactions_to_csv (r0 :: rs)).toList
      = (CSV_FIELDNAMES.map String.toList) ::
        (r0 :: rs).map (fun r => (txRowStrs r).map String.toList) := by
  rw [toCSV_cons_toList]
  apply parseRecordsF_rows
  · have h := flatten_length_ge
      ((((CSV_FIELDNAMES.map String.toList) ::
        (r0 :: rs).map (fun r => (txRowStrs r).map String.toList)).map csvRow))
      (by
        intro l hl
        rcases List.mem_map.mp hl with ⟨fs, _, rfl⟩
        exact csvRow_length_pos fs)
    simp only [List.length_map] at h
    omega
  · intro r hr
    rcases List.mem_cons.mp hr with rfl | hr'
    · simp [CSV_FIELDNAMES]
    · rcases List.mem_map.mp hr' with ⟨row, _, rfl⟩
      simp [txRowStrs, CSV_FIELDNAMES]

/-! ## Claim C7 — CSV shape -/

/-- **C7, confirmed**: `transactions_to_csv` is total and deterministic by
construction; on the empty list it returns exactly the header line; on a
non-empty list its record structure is the header record followed by one
record per transaction in input order, each cell read with default `""`;
and a missing field renders as the empty string. -/
theorem claim7_csv_shape :
    transactions_to_csv [] = "date,description,amount,type,category\n" ∧
    (∀ rows : List PyDict, rows ≠ [] →
      parseCSVRecords (transactions_to_csv rows) = CSV_FIELDNAMES :: rows.map txRowStrs) ∧
    (∀ (row : PyDict) (k : String), dGet row k = none →
      csvCell (dGetD row k (.vstr "")) = "") := by
  refine ⟨rfl, ?_, ?_⟩
  · intro rows hne
    cases rows with
    | nil => exact absurd rfl hne
    | cons r0 rs =>
      unfold parseCSVRecords
      rw [parseRecordsF_toCSV]
      simp only [List.map_cons, List.map_map, List.cons.injEq]
      refine ⟨rfl, rfl, ?_⟩
      apply List.map_congr_left
      intro r _
      rfl
  · intro row k h
    unfold dGetD
    rw [h]
    rfl

theorem claim7_witness :
    parseCSVRecords (transactions_to_csv [[("amount", PyVal.vstr "7")]])
        = CSV_FIELDNAMES :: [txRowStrs [("amount", PyVal.vstr "7")]] ∧
      csvCell (dGetD [("amount", PyVal.vstr "7")] "date" (PyVal.vstr "")) = "" :=
  ⟨claim7_csv_shape.2.1 [[("amount", PyVal.vstr "7")]] (by simp),
   claim7_csv_shape.2.2 [("amount", PyVal.vstr "7")] "date" rfl⟩

/-! ## Claim C8 — CSV round trip -/

/-- **C8, confirmed**: parsing the produced CSV with a standard
quote-aware CSV parser over the five fixed columns yields exactly the
five-field string normalization of the input rows, in order. -/
theorem claim8_csv_roundtrip :
    ∀ rows : List PyDict, parseCSV (transactions_to_csv rows) = rows.map normalizeRow := by
  intro rows
  cases rows with
  | nil => decide
  | cons r0 rs =>
    unfold parseCSV parseCSVRecords
    rw [parseRecordsF_toCSV]
    simp only [List.map_cons, List.map_map, List.cons.injEq]
    refine ⟨rfl, ?_⟩
    apply List.map_congr_left
    intro r _
    rfl

/-! ## `pdf_processor.py` — text extraction and the scanned path

The PDF, its rendered page images, the OCR engine and the vision API are
external; they enter as an environment of oracles.  A rendered page image
is identified by the rendering DPI and its page index, which is what the
OCR and vision oracles key on.  `Except` models raised exceptions. -/

def MIN_TEXT_PER_PAGE : Nat := 100

def OCR_DPI : Nat := 300

def VISION_ONLY_MAX_PAGES : Nat := 5

/-- The external world of one `extract_text_from_pdf` run. -/
structure PdfEnv where
  numPages : Nat
  render : Nat → Except String Nat
  apiKey : String
  groqInstalled : Bool
  visionContent : Nat → Nat → Option String
  ocrRun : Nat → Nat → Except String String
  directText : String
  pypdfText : String

def strContainsAux (needle : List Char) : List Char → Bool
  | [] => needle.isEmpty
  | c :: rest => needle.isPrefixOf (c :: rest) || strContainsAux needle rest

/-- Python `needle in hay` on strings. -/
def strContains (hay needle : String) : Bool := strContainsAux needle.toList hay.toList

/-- `_pdf_to_images`: render at a DPI; a raised message mentioning
poppler (or the poppler-specific page-count failure) is replaced by the
installation hint, any other by a generic prefix. -/
def pdfToImages (env : PdfEnv) (dpi : Nat) : Except String Nat :=
  match env.render dpi with
  | .ok n => .ok n
  | .error e =>
    if strContains (pyLower (pyStrip e)) "poppler" ||
        strContains (pyLower (pyStrip e)) "page count" then
      .error ("PDF to image failed: poppler is required. " ++
        "Install it (e.g. brew install poppler on macOS, apt install poppler-utils on Linux).")
    else .error ("PDF to image failed: " ++ pyStrip e)

/-- `_extract_text_vision`: empty without an API key or the groq client;
otherwise the non-empty stripped page contents joined with blank lines,
a page whose call raises being skipped. -/
def extractTextVision (env : PdfEnv) (dpi n : Nat) : String :=
  if pyStrip env.apiKey = "" then ""
  else if ¬ env.groqInstalled then ""
  else
    String.intercalate "\n\n" ((List.range n).filterMap (fun i =>
      match env.visionContent dpi i with
      | none => none
      | some content => if pyStrip content = "" then none else some (pyStrip content)))

/-- The page loop of `_extract_text_ocr_from_images`: per-page text, the
non-empty parts collected in order, the first raised error propagated. -/
def ocrParts (env : PdfEnv) (dpi : Nat) : Nat → Except String (List String)
  | 0 => .ok []
  | k + 1 =>
    match ocrParts env dpi k with
    | .error e => .error e
    | .ok parts =>
      match env.ocrRun dpi k with
      | .error e => .error e
      | .ok t => .ok (if t = "" then parts else parts ++ [t])

/-- `_extract_text_ocr_from_images`: the parts joined with newlines. -/
def extractTextOcr (env : PdfEnv) (dpi n : Nat) : Except String String :=
  match ocrParts env dpi n with
  | .error e => .error e
  | .ok parts => .ok (String.intercalate "\n" parts)

/-- `(scanned_method or "").strip().lower()`. -/
def methodNorm (m : Option String) : String := pyLower (pyStrip (m.getD ""))

def forceOcrOf (m : Option String) : Bool := methodNorm m == "ocr"

def forceVisionOf (m : Option String) : Bool := methodNorm m == "vision"

/-- The auto heuristic: vision-only for page counts up to 5 unless a
method is forced. -/
def visionOnlyOf (env : PdfEnv) (m : Option String) : Bool :=
  if !(forceOcrOf m) && !(forceVisionOf m) then decide (env.numPages ≤ VISION_ONLY_MAX_PAGES)
  else forceVisionOf m

/-- 150 DPI for the vision-only and forced-vision paths, OCR DPI
otherwise. -/
def dpiOf (env : PdfEnv) (m : Option String) : Nat :=
  if visionOnlyOf env m || forceVisionOf m then 150 else OCR_DPI

/-- The raised-message translation of the OCR branches. -/
def ocrErrorTranslate (e : String) : String :=
  if strContains (pyLower (pyStrip e)) "tesseract" ||
      strContains (pyLower (pyStrip e)) "pytesseract" then
    "OCR failed: Tesseract is required for scanned PDFs. " ++
      "Install it (e.g. brew install tesseract on macOS) and ensure it is on PATH."
  else e

/-- The outcome of the scanned path, instrumented with the DPI used and
which extraction methods ran. -/
structure ScanResult where
  dpi : Nat
  usedVision : Bool
  usedOCR : Bool
  text : String
deriving DecidableEq

/-- `_extract_text_scanned`: render page images at the chosen DPI, then
vision only (forced vision, or auto with at most 5 pages), OCR only
(forced), or both with the longer stripped text winning. -/
def extractTextScanned (env : PdfEnv) (m : Option String) : Except String ScanResult :=
  match pdfToImages env (dpiOf env m) with
  | .error e => .error e
  | .ok n =>
    if n = 0 then .ok ⟨dpiOf env m, false, false, ""⟩
    else if forceVisionOf m || (visionOnlyOf env m && !(forceOcrOf m)) then
      .ok ⟨dpiOf env m, true, false,
        if extractTextVision env (dpiOf env m) n ≠ "" then
          pyStrip (extractTextVision env (dpiOf env m) n)
        else ""⟩
    else if forceOcrOf m then
      match extractTextOcr env (dpiOf env m) n with
      | .error e => .error (ocrErrorTranslate e)
      | .ok t => .ok ⟨dpiOf env m, false, true, t⟩
    else
      match extractTextOcr env (dpiOf env m) n with
      | .error e => .error (ocrErrorTranslate e)
      | .ok ocrText =>
        if extractTextVision env (dpiOf env m) n ≠ "" ∧
            (pyStrip ocrText).length < (pyStrip (extractTextVision env (dpiOf env m) n)).length then
          .ok ⟨dpiOf env m, true, true, pyStrip (extractTextVision env (dpiOf env m) n)⟩
        else .ok ⟨dpiOf env m, true, true, ocrText⟩

/-- The direct text after the pypdf retry: pypdf replaces the pdfplumber
text when the latter is empty or under 50 trimmed characters. -/
def directTextOf (env : PdfEnv) : String :=
  if env.directText = "" ∨ (pyStrip env.directText).length < 50 then env.pypdfText
  else env.directText

/-- `extract_text_from_pdf`: empty for zero pages; the scanned path when
the direct text averages under 100 characters per page; the direct text
otherwise. -/
def extract_text_from_pdf (env : PdfEnv) (m : Option String) : Except String String :=
  if env.numPages = 0 then .ok ""
  else if (directTextOf env).length < MIN_TEXT_PER_PAGE * env.numPages then
    match extractTextScanned env m with
    | .error e => .error e
    | .ok r => .ok r.text
  else .ok (directTextOf env)

/-! ## Claim C1 — the scanned vision-only path -/

/-- **C1, amended**: a scanned run with page count at most 5 and no forced
method renders at the low vision DPI of 150 and takes the vision path
only — the OCR path is never invoked; and when no API key is configured
the vision call returns no text and the run returns the *empty* string
(there is no OCR fallback), so the end-to-end extraction of such a
document is empty.  (The amendment: the claim requires the OCR path to
still produce usable text in that situation; the code skips OCR entirely
on the vision-only path; see the counterexample.) -/
theorem claim1_scanned_vision_only :
    ∀ (env : PdfEnv) (n : Nat),
      env.numPages ≤ VISION_ONLY_MAX_PAGES →
      env.render 150 = .ok n → n ≠ 0 →
      (dpiOf env none = 150 ∧
        extractTextScanned env none = .ok ⟨150, true, false,
          if extractTextVision env 150 n ≠ "" then pyStrip (extractTextVision env 150 n)
          else ""⟩) ∧
      (pyStrip env.apiKey = "" →
        extractTextScanned env none = .ok ⟨150, true, false, ""⟩ ∧
        (env.numPages ≠ 0 → (directTextOf env).length < MIN_TEXT_PER_PAGE * env.numPages →
          extract_text_from_pdf env none = .ok "")) := by
  intro env n hpages hrender hn
  have hvo : visionOnlyOf env none = true := by
    unfold visionOnlyOf
    rw [if_pos (by decide)]
    exact decide_eq_true hpages
  have hdpi : dpiOf env none = 150 := by
    unfold dpiOf
    rw [if_pos (by rw [hvo]; rfl)]
  have hrend : pdfToImages env (dpiOf env none) = .ok n := by
    unfold pdfToImages
    rw [hdpi, hrender]
  have hscan : extractTextScanned env none = .ok ⟨150, true, false,
      if extractTextVision env 150 n ≠ "" then pyStrip (extractTextVision env 150 n)
      else ""⟩ := by
    unfold extractTextScanned
    rw [hrend]
    dsimp only
    rw [if_neg hn]
    rw [if_pos (by rw [hvo]; rfl)]
    rw [hdpi]
  refine ⟨⟨hdpi, hscan⟩, ?_⟩
  intro hkey
  have hvis : extractTextVision env 150 n = "" := by
    unfold extractTextVision
    rw [if_pos hkey]
  have hscan0 : extractTextScanned env none = .ok ⟨150, true, false, ""⟩ := by
    rw [hscan, hvis]
    simp
  refine ⟨hscan0, ?_⟩
  intro hnz hlow
  unfold extract_text_from_pdf
  rw [if_neg hnz, if_pos hlow, hscan0]

/-- The C1 counterexample environment: a 3-page scanned document, no API
key configured, the OCR oracle able to return non-empty text for every
page. -/
def env1 : PdfEnv :=
  ⟨3, fun _ => .ok 3, "", true, fun _ _ => some "", fun _ _ => .ok "OCR PAGE TEXT", "", ""⟩

/-- **C1, counterexample**: on a 3-page scanned document with no API key,
the vision-only path returns the empty string even though the OCR engine
would have produced non-empty text — the claim's required OCR fallback
does not exist. -/
theorem claim1_counterexample :
    ¬ (∀ (env : PdfEnv) (n : Nat), env.numPages ≤ VISION_ONLY_MAX_PAGES →
        env.render 150 = .ok n → n ≠ 0 → pyStrip env.apiKey = "" →
        (∀ dpi i, env.ocrRun dpi i = .ok "OCR PAGE TEXT") →
        ∃ r, extractTextScanned env none = .ok r ∧ r.text ≠ "") := by
  intro h
  rcases h env1 3 (by decide) rfl (by decide) rfl (fun _ _ => rfl) with ⟨r, hr, hne⟩
  have heval : extractTextScanned env1 none = .ok ⟨150, true, false, ""⟩ := rfl
  rw [heval] at hr
  injection hr with hr'
  exact hne (by rw [← hr'])

theorem claim1_witness :
    env1.numPages ≤ VISION_ONLY_MAX_PAGES ∧ env1.render 150 = .ok 3 ∧
      dpiOf env1 none = 150 ∧
      extractTextScanned env1 none = .ok ⟨150, true, false, ""⟩ :=
  ⟨by decide, rfl,
   (claim1_scanned_vision_only env1 3 (by decide) rfl (by decide)).1.1,
   ((claim1_scanned_vision_only env1 3 (by decide) rfl (by decide)).2 rfl).1⟩

/-! ## `store.py` — the in-memory job store -/

/-- The record stored per job. -/
structure JobRecord where
  transactions : List Tx
  csv_content : String
deriving DecidableEq

/-- The `jobs` dict, as the map it denotes. -/
def Store : Type := String → Option JobRecord

/-- The store at process start: no job stored. -/
def emptyStore : Store := fun _ => none

/-- `set_job`: bind the id to the record, leaving every other key as it
was. -/
def set_job (jobs : Store) (job_id : String) (transactions : List Tx)
    (csv_content : String) : Store :=
  fun k => if k = job_id then some ⟨transactions, csv_content⟩ else jobs k

/-- `get_job`: `jobs.get(job_id)`. -/
def get_job (jobs : Store) (job_id : String) : Option JobRecord := jobs job_id

/-- A sequence of `set_job` calls applied in order. -/
def applyOps : Store → List (String × List Tx × String) → Store
  | jobs, [] => jobs
  | jobs, (job_id, tx, csv) :: rest => applyOps (set_job jobs job_id tx csv) rest

/-! ## Claim C10 — job store round trip -/

/-- **C10, confirmed**: reading an id immediately after storing under it
returns exactly the stored record; storing leaves every other id's record
unchanged; and an id never stored — by any sequence of `set_job` calls on
the initially empty store — reads as `none`. -/
theorem claim10_store_roundtrip :
    (∀ (jobs : Store) (job_id : String) (tx : List Tx) (csv : String),
      get_job (set_job jobs job_id tx csv) job_id = some ⟨tx, csv⟩) ∧
    (∀ (jobs : Store) (job_id other : String) (tx : List Tx) (csv : String), other ≠ job_id →
      get_job (set_job jobs job_id tx csv) other = get_job jobs other) ∧
    (∀ (ops : List (String × List Tx × String)) (job_id : String),
      job_id ∉ ops.map (fun p => p.1) → get_job (applyOps emptyStore ops) job_id = none) := by
  refine ⟨?_, ?_, ?_⟩
  · intro jobs job_id tx csv
    simp [get_job, set_job]
  · intro jobs job_id other tx csv h
    simp [get_job, set_job, h]
  · have hgen : ∀ (ops : List (String × List Tx × String)) (jobs : Store) (job_id : String),
        job_id ∉ ops.map (fun p => p.1) → get_job jobs job_id = none →
        get_job (applyOps jobs ops) job_id = none := by
      intro ops
      induction ops with
      | nil => intro jobs job_id _ h0; exact h0
      | cons p rest ih =>
        intro jobs job_id hmem h0
        simp only [List.map_cons, List.mem_cons] at hmem
        push_neg at hmem
        exact ih _ job_id hmem.2 (by
          simp only [get_job, set_job, if_neg hmem.1]
          exact h0)
    intro ops job_id hmem
    exact hgen ops emptyStore job_id hmem rfl

theorem claim10_witness :
    get_job (set_job emptyStore "job1" [] "csv") "job1" = some ⟨[], "csv"⟩ ∧
      get_job (set_job (set_job emptyStore "job2" [] "x") "job1" [] "csv") "job2"
        = get_job (set_job emptyStore "job2" [] "x") "job2" ∧
      get_job (applyOps emptyStore [("a", [], "u"), ("b", [], "v")]) "zzz" = none :=
  ⟨claim10_store_roundtrip.1 emptyStore "job1" [] "csv",
   claim10_store_roundtrip.2.1 (set_job emptyStore "job2" [] "x") "job1" "job2" [] "csv"
     (by decide),
   claim10_store_roundtrip.2.2 [("a", [], "u"), ("b", [], "v")] "zzz" (by decide)⟩

end PdfAgent
